import Mathlib

/-!
# Verification of `scripts/void_service.py`

A shallow embedding of the stdio bridge in `scripts/void_service.py`.
JSON values are modelled by an inductive type; Python's `json.dumps` (with
its default separators and `ensure_ascii` escaping) is modelled by `dumps`;
the configuration fingerprint `json.dumps(config, sort_keys=True)` is
modelled by `fingerprint`.  The external `VoidMemoryManager` collaborator is
opaque: its operations are oracle functions supplied by a `Collab` record,
and every observable action of the bridge (load, construct, register,
reinforce, save, emitted output line) is recorded as an explicit effect.
-/

namespace VoidService

/-! ## JSON values

Python `json.loads` produces `None`, `bool`, numbers (`int`/`float`),
`str`, `list` and `dict`.  Numbers are carried by their textual
representation (the string `repr` would print and `json.dumps` would emit),
which is faithful for the bridge since the bridge never computes with
numbers, it only passes them through and serializes them. -/

/-- Characters that may appear in the textual representation of a Python
`int` or finite `float` (digits, sign, decimal point, exponent marker). -/
def isNumChar (c : Char) : Bool :=
  c.isDigit || c = '-' || c = '+' || c = '.' || c = 'e' || c = 'E'

/-- A well-formed numeric representation: non-empty, made of number
characters only. -/
def NumOk (l : List Char) : Prop :=
  l ≠ [] ∧ l.all isNumChar = true

instance (l : List Char) : Decidable (NumOk l) := by
  unfold NumOk; infer_instance

/-- JSON values as produced by `json.loads`. -/
inductive JsonVal where
  | jnull
  | jbool (b : Bool)
  | jnum (s : {l : List Char // NumOk l})
  | jstr (s : String)
  | jarr (items : List JsonVal)
  | jobj (items : List (String × JsonVal))

/-- Smart constructor for number literals. -/
def numLit (s : String) (h : NumOk s.data) : JsonVal := .jnum ⟨s.data, h⟩

/-! ## Serialization (`json.dumps`)

`json.dumps` with default arguments: separators `", "` and `": "`,
`ensure_ascii=True` (every character outside printable ASCII is escaped). -/

/-- Lowercase hexadecimal digit, as produced by `'%04x'` formatting. -/
def hexDig (n : Nat) : Char :=
  if n < 10 then Char.ofNat (48 + n) else Char.ofNat (87 + n)

/-- Four-digit lowercase hex rendering of `n < 0x10000`. -/
def hex4 (n : Nat) : List Char :=
  [hexDig (n / 4096 % 16), hexDig (n / 256 % 16), hexDig (n / 16 % 16), hexDig (n % 16)]

/-- Per-character encoding of `json.dumps`'s `ensure_ascii` string escaping:
`"` and `\` get a backslash escape, printable ASCII is copied verbatim,
`\b \t \n \f \r` use their short escapes, everything else becomes `\uXXXX`
(astral characters become a surrogate pair). -/
def encodeCharJson (c : Char) : List Char :=
  if c = '"' then ['\\', '"']
  else if c = '\\' then ['\\', '\\']
  else if 0x20 ≤ c.toNat ∧ c.toNat ≤ 0x7E then [c]
  else if c.toNat = 8 then ['\\', 'b']
  else if c.toNat = 9 then ['\\', 't']
  else if c.toNat = 10 then ['\\', 'n']
  else if c.toNat = 12 then ['\\', 'f']
  else if c.toNat = 13 then ['\\', 'r']
  else if c.toNat < 0x10000 then '\\' :: 'u' :: hex4 c.toNat
  else
    let m := c.toNat - 0x10000
    '\\' :: 'u' :: hex4 (0xD800 + m / 0x400) ++ '\\' :: 'u' :: hex4 (0xDC00 + m % 0x400)

/-- Escape the body of a string, character by character. -/
def encBody : List Char → List Char
  | [] => []
  | c :: cs => encodeCharJson c ++ encBody cs

/-- A serialized JSON string: quote, escaped body, quote. -/
def encStr (s : List Char) : List Char :=
  '"' :: (encBody s ++ ['"'])

mutual

/-- `json.dumps` with default separators, producing the character list of
the output.  Objects are emitted in the order their items are stored. -/
def dumpsChars : JsonVal → List Char
  | .jnull => ['n', 'u', 'l', 'l']
  | .jbool true => ['t', 'r', 'u', 'e']
  | .jbool false => ['f', 'a', 'l', 's', 'e']
  | .jnum s => s.val
  | .jstr s => encStr s.data
  | .jarr l => '[' :: (dumpsArr l ++ [']'])
  | .jobj l => '{' :: (dumpsObj l ++ ['}'])

/-- Array items joined by `", "`. -/
def dumpsArr : List JsonVal → List Char
  | [] => []
  | [v] => dumpsChars v
  | v :: vs => dumpsChars v ++ ',' :: ' ' :: dumpsArr vs

/-- Object items `"key": value` joined by `", "`. -/
def dumpsObj : List (String × JsonVal) → List Char
  | [] => []
  | [(k, v)] => encStr k.data ++ ':' :: ' ' :: dumpsChars v
  | (k, v) :: ps => (encStr k.data ++ ':' :: ' ' :: dumpsChars v) ++ ',' :: ' ' :: dumpsObj ps

end

/-- `json.dumps(v)` as a Lean string. -/
def dumps (v : JsonVal) : String := ⟨dumpsChars v⟩

/-! ## Key ordering and `sort_keys=True`

Python sorts object keys by string comparison, which is lexicographic by
code point. -/

/-- Lexicographic order (by code point) on character lists, mirroring
Python string comparison. -/
def lexLe : List Char → List Char → Bool
  | [], _ => true
  | _ :: _, [] => false
  | a :: as, b :: bs =>
    if a.toNat < b.toNat then true
    else if b.toNat < a.toNat then false
    else lexLe as bs

/-- Key comparison used by `sort_keys=True`. -/
def keyLe (a b : String) : Bool := lexLe a.data b.data

/-- Insert one key/value pair into a key-sorted list of pairs. -/
def insertPair (p : String × JsonVal) : List (String × JsonVal) → List (String × JsonVal)
  | [] => [p]
  | q :: l => if keyLe p.1 q.1 then p :: q :: l else q :: insertPair p l

/-- Sort key/value pairs by key (insertion sort). -/
def sortPairs : List (String × JsonVal) → List (String × JsonVal)
  | [] => []
  | p :: l => insertPair p (sortPairs l)

mutual

/-- Recursively sort the items of every object by key.  Serializing the
result with `dumpsChars` is exactly `json.dumps(·, sort_keys=True)`. -/
def canon : JsonVal → JsonVal
  | .jnull => .jnull
  | .jbool b => .jbool b
  | .jnum s => .jnum s
  | .jstr s => .jstr s
  | .jarr l => .jarr (canonArr l)
  | .jobj l => .jobj (sortPairs (canonObj l))

/-- `canon` mapped over array items. -/
def canonArr : List JsonVal → List JsonVal
  | [] => []
  | v :: vs => canon v :: canonArr vs

/-- `canon` mapped over the values of object items. -/
def canonObj : List (String × JsonVal) → List (String × JsonVal)
  | [] => []
  | (k, v) :: ps => (k, canon v) :: canonObj ps

end

/-- `config_hash = json.dumps(config, sort_keys=True)` from
`ensure_manager` (line 96 of `scripts/void_service.py`). -/
def fingerprint (config : List (String × JsonVal)) : String :=
  ⟨dumpsChars (canon (.jobj config))⟩

/-! ## Python value formatting used by f-strings

`f'Unsupported command: {command}'` applies `str()` to the command value;
for containers `str` falls back to `repr`. -/

/-- Python `repr` of a string: quote choice as in CPython (single quotes
unless the string contains `'` and no `"`), escaping backslashes and the
chosen quote.  Escapes of non-printable characters are not modelled; no
claim depends on them. -/
def pyReprStrChars (s : List Char) : List Char :=
  let useDouble := s.contains '\'' && !(s.contains '"')
  let q : Char := if useDouble then '"' else '\''
  let escaped := s.flatMap fun c =>
    if c = '\\' then ['\\', '\\'] else if c = q then ['\\', c] else [c]
  q :: (escaped ++ [q])

mutual

/-- Python `repr` of a JSON-shaped value. -/
def pyRepr : JsonVal → String
  | .jnull => "None"
  | .jbool true => "True"
  | .jbool false => "False"
  | .jnum s => ⟨s.val⟩
  | .jstr s => ⟨pyReprStrChars s.data⟩
  | .jarr l => "[" ++ pyReprArr l ++ "]"
  | .jobj l => "\x7b" ++ pyReprObj l ++ "\x7d"

/-- `repr` of list items joined by `", "`. -/
def pyReprArr : List JsonVal → String
  | [] => ""
  | [v] => pyRepr v
  | v :: vs => pyRepr v ++ ", " ++ pyReprArr vs

/-- `repr` of dict items joined by `", "`. -/
def pyReprObj : List (String × JsonVal) → String
  | [] => ""
  | [(k, v)] => ⟨pyReprStrChars k.data⟩ ++ ": " ++ pyRepr v
  | (k, v) :: ps => ⟨pyReprStrChars k.data⟩ ++ ": " ++ pyRepr v ++ ", " ++ pyReprObj ps

end

/-- Python `str()` as used by f-string interpolation. -/
def pyStr : JsonVal → String
  | .jstr s => s
  | v => pyRepr v

/-- The name of the Python type of a value (used in `AttributeError` and
`TypeError` messages). -/
def pyTypeName : JsonVal → String
  | .jnull => "NoneType"
  | .jbool _ => "bool"
  | .jnum s => if s.val.any (fun c => c = '.' || c = 'e' || c = 'E') then "float" else "int"
  | .jstr _ => "str"
  | .jarr _ => "list"
  | .jobj _ => "dict"

/-- Python truthiness (`if reinforce:`): empty containers, empty strings,
zero numbers, `False` and `None` are falsy. -/
def pyTruthy : JsonVal → Bool
  | .jnull => false
  | .jbool b => b
  | .jnum s => !(s.val = ['0'] || s.val = ['0', '.', '0'] || s.val = ['-', '0', '.', '0'])
  | .jstr s => s ≠ ""
  | .jarr l => !l.isEmpty
  | .jobj l => !l.isEmpty

/-- Python whitespace stripped by `str.strip()` (ASCII subset; the bridge's
protocol is newline-delimited ASCII-framed JSON). -/
def isPySpace (c : Char) : Bool :=
  c = ' ' || c = '\t' || c = '\n' || c = '\r' || c.toNat = 11 || c.toNat = 12

/-- `raw_line.strip()` from `iter_requests`. -/
def pyStrip (s : String) : String :=
  ⟨((s.data.dropWhile isPySpace).reverse.dropWhile isPySpace).reverse⟩

/-- `payload.get(k)`: Python returns `None` when the key is absent, and
JSON `null` is the same `None`, so absence and an explicit `null` coincide. -/
def pyGet (l : List (String × JsonVal)) (k : String) : JsonVal :=
  (l.lookup k).getD .jnull

/-- `payload.get(k, default)`. -/
def pyGetD (l : List (String × JsonVal)) (k : String) (d : JsonVal) : JsonVal :=
  (l.lookup k).getD d

/-- `command == "some string"` (Python `==` between a `str` and a value of
another type is `False`). -/
def isCmd (c : JsonVal) (s : String) : Bool :=
  match c with
  | .jstr t => t == s
  | _ => false

/-- Substring test (`needle in hay` for Python strings). -/
def containsSub (hay needle : List Char) : Bool :=
  if needle.isPrefixOf hay then true
  else
    match hay with
    | [] => false
    | _ :: t => containsSub t needle

/-- `k in v` for a string `k`: key membership for dicts, element equality
for lists, substring test for strings, `TypeError` otherwise. -/
def pyContains (v : JsonVal) (k : String) : Except String Bool :=
  match v with
  | .jobj l => .ok (l.any (·.1 == k))
  | .jarr l => .ok (l.any fun x => match x with | .jstr t => t == k | _ => false)
  | .jstr s => .ok (containsSub s.data k.data)
  | other => .error ("argument of type '" ++ pyTypeName other ++ "' is not iterable")

/-- `v[k]` for a string `k`: dict lookup (`KeyError` when absent, rendered
as Python renders it: the quoted key), `TypeError` for other types. -/
def pyIndex (v : JsonVal) (k : String) : Except String JsonVal :=
  match v with
  | .jobj l =>
    match l.lookup k with
    | some w => .ok w
    | none => .error ("'" ++ k ++ "'")
  | .jarr _ => .error "list indices must be integers or slices, not str"
  | .jstr _ => .error "string indices must be integers, not 'str'"
  | other => .error ("'" ++ pyTypeName other ++ "' object is not subscriptable")

/-! ## The opaque collaborator

`VoidMemoryManager` lives outside this core (spec §6 declares it an
external component reached only through its operation contract).  A
`Manager` is an opaque handle identity; a `Collab` fixes the outcome of
each collaborator operation (and of the state-file probe) at the moment a
request is processed. -/

/-- Opaque manager handle, compared by identity. -/
abbrev Manager := Nat

/-- The full constructor parameter set of `VoidMemoryManager(...)` as
invoked by `load_manager` (lines 24–38). -/
structure ConstructArgs where
  capacity : JsonVal
  base_ttl : JsonVal
  decay_half_life : JsonVal
  prune_sample : JsonVal
  prune_target_ratio : JsonVal
  recency_half_life_ticks : JsonVal
  habituation_start : JsonVal
  habituation_scale : JsonVal
  boredom_weight : JsonVal
  frontier_novelty_threshold : JsonVal
  frontier_patience : JsonVal
  diffusion_interval : JsonVal
  diffusion_kappa : JsonVal
  exploration_churn_window : JsonVal

/-- Oracle for the collaborator operations and the file system, fixing
what each call would do at this point of the run. -/
structure Collab where
  stateExists : Bool
  loadJson : Except String (Option Manager)
  construct : ConstructArgs → Except String Manager
  registerChunks : Manager → JsonVal → JsonVal → Except String Unit
  reinforceOp : Manager → List (String × JsonVal) → JsonVal → JsonVal → Except String Unit
  save : Manager → Except String Unit
  statsOp : Manager → Except String JsonVal
  consumeEvents : Manager → Except String JsonVal
  topOp : Manager → Nat → Except String JsonVal

/-- Observable actions of one run of the bridge. -/
inductive Eff where
  | loadAttempt
  | loadJsonCall
  | constructCall (args : ConstructArgs)
  | registerCall (m : Manager) (ids texts : JsonVal)
  | reinforceCall (m : Manager) (results : List (String × JsonVal)) (heatGain ttlBoost : JsonVal)
  | saveCall (m : Manager)
  | emit (line : String)

/-! ## The bridge functions (`scripts/void_service.py`) -/

/-- The `config[...]` lookups evaluated as constructor arguments in
`load_manager`; a missing key raises `KeyError` (whose `str` is the quoted
key name). -/
def getArgs (config : List (String × JsonVal)) : Except String ConstructArgs := do
  let lk := fun (k : String) =>
    match List.lookup k config with
    | some v => Except.ok v
    | none => Except.error ("'" ++ k ++ "'")
  let capacity ← lk "capacity"
  let base_ttl ← lk "base_ttl"
  let decay_half_life ← lk "decay_half_life"
  let prune_sample ← lk "prune_sample"
  let prune_target_ratio ← lk "prune_target_ratio"
  let recency_half_life_ticks ← lk "recency_half_life_ticks"
  let habituation_start ← lk "habituation_start"
  let habituation_scale ← lk "habituation_scale"
  let boredom_weight ← lk "boredom_weight"
  let frontier_novelty_threshold ← lk "frontier_novelty_threshold"
  let frontier_patience ← lk "frontier_patience"
  let diffusion_interval ← lk "diffusion_interval"
  let diffusion_kappa ← lk "diffusion_kappa"
  let exploration_churn_window ← lk "exploration_churn_window"
  pure ⟨capacity, base_ttl, decay_half_life, prune_sample, prune_target_ratio,
    recency_half_life_ticks, habituation_start, habituation_scale, boredom_weight,
    frontier_novelty_threshold, frontier_patience, diffusion_interval,
    diffusion_kappa, exploration_churn_window⟩

/-- The fallback branch of `load_manager`: construct a fresh
`VoidMemoryManager` from the configuration. -/
def constructManager (cb : Collab) (config : List (String × JsonVal)) :
    Except String Manager × List Eff :=
  match getArgs config with
  | .error e => (.error e, [])
  | .ok args => (cb.construct args, [.constructCall args])

/-- `load_manager` (lines 15–38): if the state file exists and
`load_json` yields a manager, return it; otherwise construct from the
config. -/
def load_manager (cb : Collab) (config : List (String × JsonVal)) :
    Except String Manager × List Eff :=
  if cb.stateExists then
    match cb.loadJson with
    | .error e => (.error e, [.loadAttempt, .loadJsonCall])
    | .ok (some m) => (.ok m, [.loadAttempt, .loadJsonCall])
    | .ok none =>
      let r := constructManager cb config
      (r.1, .loadAttempt :: .loadJsonCall :: r.2)
  else
    let r := constructManager cb config
    (r.1, .loadAttempt :: r.2)

/-- `persist_manager` (lines 41–45): save the manager state to disk. -/
def persist_manager (cb : Collab) (m : Manager) : Except String Unit × List Eff :=
  (cb.save m, [.saveCall m])

/-- The reinforcement instruction built in `register_and_reinforce`
(lines 59–64): only the keys the caller supplied under `reinforce` are
forwarded. -/
def buildResults (reinf : JsonVal) : Except String (List (String × JsonVal)) := do
  let hasIds ← pyContains reinf "ids"
  let base ← if hasIds then
      (pyIndex reinf "ids").map fun v => [("ids", v)]
    else pure []
  let hasDist ← pyContains reinf "distances"
  if hasDist then
    (pyIndex reinf "distances").map fun v => base ++ [("distances", v)]
  else pure base

/-- The `if reinforce:` block of `register_and_reinforce` (lines 58–68):
build the instruction and call `manager.reinforce`; skipped when
`reinforce` is falsy. -/
def reinforceStep (cb : Collab) (m : Manager) (reinf heat_gain ttl_boost : JsonVal) :
    Except String Unit × List Eff :=
  if pyTruthy reinf then
    match buildResults reinf with
    | .error e => (.error e, [])
    | .ok results =>
      (cb.reinforceOp m results heat_gain ttl_boost,
       [.reinforceCall m results heat_gain ttl_boost])
  else (.ok (), [])

/-- The response literal of `register_and_reinforce` (lines 73–77):
`stats`, `events` (drained), `top(5)`, evaluated in that order. -/
def responseStep (cb : Collab) (m : Manager) : Except String JsonVal := do
  let st ← cb.statsOp m
  let ev ← cb.consumeEvents m
  let tp ← cb.topOp m 5
  pure (.jobj [("stats", st), ("events", ev), ("top", tp)])

/-- The tail of `register_and_reinforce` after a successful
`register_chunks`: optional reinforcement (lines 58–68), then
`persist_manager` (line 70), then the response (lines 73–77). -/
def afterRegister (cb : Collab) (m : Manager) (ids texts reinf heat_gain ttl_boost : JsonVal) :
    Except String JsonVal × List Eff :=
  match (reinforceStep cb m reinf heat_gain ttl_boost).1 with
  | .error e =>
    (.error e, .registerCall m ids texts :: (reinforceStep cb m reinf heat_gain ttl_boost).2)
  | .ok _ =>
    match (persist_manager cb m).1 with
    | .error e =>
      (.error e, .registerCall m ids texts ::
        ((reinforceStep cb m reinf heat_gain ttl_boost).2 ++ (persist_manager cb m).2))
    | .ok _ =>
      (responseStep cb m, .registerCall m ids texts ::
        ((reinforceStep cb m reinf heat_gain ttl_boost).2 ++ (persist_manager cb m).2))

/-- `register_and_reinforce` (lines 48–78): register the chunks, apply
optional reinforcement, persist, and build the stats/events/top response.
`reinforce` defaults to `{}`, `heat_gain` to `0.5`, `ttl_boost` to `60`. -/
def register_and_reinforce (cb : Collab) (m : Manager)
    (payload : List (String × JsonVal)) : Except String JsonVal × List Eff :=
  match List.lookup "ids" payload with
  | none => (.error "'ids'", [])
  | some ids =>
    match List.lookup "texts" payload with
    | none => (.error "'texts'", [])
    | some texts =>
      match cb.registerChunks m ids texts with
      | .error e => (.error e, [.registerCall m ids texts])
      | .ok _ =>
        afterRegister cb m ids texts (pyGetD payload "reinforce" (.jobj []))
          (pyGetD payload "heat_gain" (numLit "0.5" (by decide)))
          (pyGetD payload "ttl_boost" (numLit "60" (by decide)))

/-- `ensure_manager` (lines 89–100): pure cache hit when a manager is held
and the cached hash matches the fingerprint of the incoming config,
otherwise load-or-construct. -/
def ensure_manager (cb : Collab) (manager : Option Manager)
    (cached_config_hash : Option String) (config : List (String × JsonVal)) :
    Except String (Manager × String) × List Eff :=
  match manager with
  | some m =>
    if cached_config_hash = some (fingerprint config) then (.ok (m, fingerprint config), [])
    else
      ((load_manager cb config).1.map fun m' => (m', fingerprint config),
       (load_manager cb config).2)
  | none =>
    ((load_manager cb config).1.map fun m' => (m', fingerprint config),
     (load_manager cb config).2)

/-- The session state threaded through `main`'s loop: the live manager
handle (if any) and the fingerprint it is cached under. -/
structure Session where
  manager : Option Manager
  cachedHash : Option String

/-- What one request does to the control flow of the loop. -/
inductive Ctl where
  | next
  | halt
  | crash (msg : String)

/-- Command dispatch (lines 133–137): `register` runs
`register_and_reinforce` (exceptions become a `Void manager error`
response); any other command produces the `Unsupported command` response
with no collaborator interaction. -/
def dispatchCmd (cb : Collab) (m : Manager) (pl : List (String × JsonVal))
    (command : JsonVal) : JsonVal × List Eff :=
  if isCmd command "register" then
    match (register_and_reinforce cb m pl).1 with
    | .ok res => (res, (register_and_reinforce cb m pl).2)
    | .error e =>
      (.jobj [("error", .jstr ("Void manager error: " ++ e))], (register_and_reinforce cb m pl).2)
  else
    (.jobj [("error", .jstr ("Unsupported command: " ++ pyStr command))], [])

/-- One iteration of `main`'s dispatch loop (lines 103–141) on an already
stripped, non-empty line.  `parse` models `json.loads`.  A payload that is
valid JSON but not an object makes `payload.get('command')` raise an
uncaught `AttributeError`, aborting the loop. -/
def processLine (parse : String → Except String JsonVal) (cb : Collab)
    (st : Session) (line : String) : Session × List Eff × Ctl :=
  match parse line with
  | .error e =>
    (st, [.emit (dumps (.jobj [("error", .jstr ("Invalid JSON payload: " ++ e))]))], .next)
  | .ok (.jobj pl) =>
    if isCmd (pyGet pl "command") "__shutdown__" then
      (st, [.emit (dumps (.jobj [("ok", .jbool true), ("command", .jstr "__shutdown__")]))],
       .halt)
    else
      match pyGet pl "config" with
      | .jobj cfg =>
        match (ensure_manager cb st.manager st.cachedHash cfg).1 with
        | .error e =>
          (st, (ensure_manager cb st.manager st.cachedHash cfg).2 ++ [.emit (dumps (.jobj
            [("error", .jstr ("Failed to initialize manager: " ++ e))]))], .next)
        | .ok (m, h) =>
          (⟨some m, some h⟩,
           (ensure_manager cb st.manager st.cachedHash cfg).2 ++
             (dispatchCmd cb m pl (pyGet pl "command")).2 ++
             [.emit (dumps (dispatchCmd cb m pl (pyGet pl "command")).1)],
           .next)
      | _ => (st, [.emit (dumps (.jobj [("error", .jstr "Missing manager configuration")]))], .next)
  | .ok other =>
    (st, [], .crash ("'" ++ pyTypeName other ++ "' object has no attribute 'get'"))

/-- How a run of `main` ended. -/
inductive Outcome where
  | eof
  | shutdown
  | crashed (msg : String)

/-- `main` (lines 103–141): strip each raw input line, skip the blank
ones (`iter_requests`), and dispatch the rest in order; each line is
processed against the collaborator oracle paired with it. -/
def runMain (parse : String → Except String JsonVal) :
    List (String × Collab) → Session → List Eff × Outcome
  | [], _ => ([], .eof)
  | (raw, cb) :: rest, st =>
    if pyStrip raw = "" then runMain parse rest st
    else
      match (processLine parse cb st (pyStrip raw)).2.2 with
      | .next =>
        ((processLine parse cb st (pyStrip raw)).2.1 ++
           (runMain parse rest (processLine parse cb st (pyStrip raw)).1).1,
         (runMain parse rest (processLine parse cb st (pyStrip raw)).1).2)
      | .halt => ((processLine parse cb st (pyStrip raw)).2.1, .shutdown)
      | .crash e => ((processLine parse cb st (pyStrip raw)).2.1, .crashed e)

/-! ## Observations over effect traces -/

/-- The output lines printed to stdout, in order. -/
def outputsOf (effs : List Eff) : List String :=
  effs.filterMap fun e => match e with | .emit s => some s | _ => none

/-- Number of entries into the load-or-construct path (`load_manager`). -/
def countLoads (effs : List Eff) : Nat :=
  effs.countP fun e => match e with | .loadAttempt => true | _ => false

/-- Number of `save_json` persistence calls. -/
def countSaves (effs : List Eff) : Nat :=
  effs.countP fun e => match e with | .saveCall _ => true | _ => false

/-- Number of `manager.reinforce` calls. -/
def countReinforces (effs : List Eff) : Nat :=
  effs.countP fun e => match e with | .reinforceCall _ _ _ _ => true | _ => false

/-- Number of `VoidMemoryManager(...)` constructor calls. -/
def countConstructs (effs : List Eff) : Nat :=
  effs.countP fun e => match e with | .constructCall _ => true | _ => false

/-! ## Predicates and concrete instances used by the theorems -/

/-- A parse result that `main` handles without an uncaught exception: a
JSON object or a parse failure.  `payload.get('command')` on any other
parse result raises `AttributeError`, which nothing catches. -/
def ObjOrErr : Except String JsonVal → Prop
  | .ok (.jobj _) => True
  | .error _ => True
  | _ => False

instance (r : Except String JsonVal) : Decidable (ObjOrErr r) := by
  unfold ObjOrErr; split <;> infer_instance

/-- The cache invariant of the dispatch loop, relative to the service's
collaborator `cb` (the `VoidMemoryManager` environment the process talks
to): either the session is empty, or the held handle is exactly the one
`cb`'s load-or-construct resolution produces for a configuration whose
fingerprint is the cached one.  With a failing collaborator no handle can
ever satisfy the second disjunct, so the clause genuinely ties the cached
pair to an actual resolution. -/
def SessionInv (cb : Collab) (st : Session) : Prop :=
  (st.manager = none ∧ st.cachedHash = none) ∨
  ∃ m config, st.manager = some m ∧ st.cachedHash = some (fingerprint config) ∧
    (load_manager cb config).1 = .ok m

/-- A configuration carrying all fourteen constructor parameters. -/
def cfg14 : List (String × JsonVal) :=
  [("capacity", .jnull), ("base_ttl", .jnull), ("decay_half_life", .jnull),
   ("prune_sample", .jnull), ("prune_target_ratio", .jnull),
   ("recency_half_life_ticks", .jnull), ("habituation_start", .jnull),
   ("habituation_scale", .jnull), ("boredom_weight", .jnull),
   ("frontier_novelty_threshold", .jnull), ("frontier_patience", .jnull),
   ("diffusion_interval", .jnull), ("diffusion_kappa", .jnull),
   ("exploration_churn_window", .jnull)]

/-- The argument record assembled from `cfg14`. -/
def args14 : ConstructArgs :=
  ⟨.jnull, .jnull, .jnull, .jnull, .jnull, .jnull, .jnull, .jnull, .jnull,
   .jnull, .jnull, .jnull, .jnull, .jnull⟩

/-- A collaborator oracle whose operations all succeed. -/
def cbStub : Collab where
  stateExists := false
  loadJson := .ok none
  construct := fun _ => .ok 7
  registerChunks := fun _ _ _ => .ok ()
  reinforceOp := fun _ _ _ _ => .ok ()
  save := fun _ => .ok ()
  statsOp := fun _ => .ok .jnull
  consumeEvents := fun _ => .ok .jnull
  topOp := fun _ _ => .ok .jnull

/-- A collaborator oracle whose constructor always raises. -/
def cbFailing : Collab :=
  { cbStub with construct := fun _ => .error "boom" }

/-- A `json.loads` oracle for the counterexample inputs: `123` parses to
the integer `123`, `null` parses to `None`, everything else fails to
parse. -/
def parseProbe : String → Except String JsonVal := fun s =>
  if s = "123" then .ok (numLit "123" (by decide))
  else if s = "null" then .ok .jnull
  else .error "Expecting value: line 1 column 1 (char 0)"

/-- A `json.loads` oracle mapping `a` to a register-free request whose
config is the empty object, and `b` to a request with config
`{"capacity": 1}`. -/
def parseTiny : String → Except String JsonVal := fun s =>
  if s = "a" then .ok (.jobj [("config", .jobj [])])
  else if s = "b" then .ok (.jobj [("config", .jobj [("capacity", numLit "1" (by decide))])])
  else if s = "c" then .ok (.jobj [("config", .jobj cfg14)])
  else if s = "s" then .ok (.jobj [("command", .jstr "__shutdown__")])
  else .error "Expecting value: line 1 column 1 (char 0)"

/-- Whether a value is a JSON object (`isinstance(config, dict)`). -/
def isObj : JsonVal → Bool
  | .jobj _ => true
  | _ => false

/-- Number of emitted output lines. -/
def countEmits (effs : List Eff) : Nat :=
  (outputsOf effs).length

/-! ## Structural equality of configurations (for claim C4)

A Python dict has unique keys, and two dicts are the same mapping exactly
when they hold the same key/value pairs regardless of key order; values
that are themselves dicts compare the same way, while list values compare
by element order. -/

/-- Characters that may legitimately follow a serialized JSON value inside
a larger serialization (separators and closers), or nothing at all. -/
def stopChar (c : Char) : Bool :=
  c = ',' || c = ']' || c = '}'

/-- A continuation of the output stream that cannot extend the value just
serialized. -/
def GoodRest (r : List Char) : Prop :=
  r = [] ∨ ∃ c t, r = c :: t ∧ stopChar c = true

/-- First characters a serialized JSON value can have. -/
def valueStart (c : Char) : Bool :=
  c = 'n' || c = 't' || c = 'f' || c = '"' || c = '[' || c = '{' || isNumChar c

/-- The first character of a value's serialization. -/
def headCh : JsonVal → Char
  | .jnull => 'n'
  | .jbool true => 't'
  | .jbool false => 'f'
  | .jnum s => s.val.headD '0'
  | .jstr _ => '"'
  | .jarr _ => '['
  | .jobj _ => '{'

/-- The two-character escapes of the string encoder: character `c` is
rendered as backslash followed by `e`. -/
def escPair (c e : Char) : Prop :=
  (c = '"' ∧ e = '"') ∨ (c = '\\' ∧ e = '\\') ∨
  (c.toNat = 8 ∧ e = 'b') ∨ (c.toNat = 9 ∧ e = 't') ∨ (c.toNat = 10 ∧ e = 'n') ∨
  (c.toNat = 12 ∧ e = 'f') ∨ (c.toNat = 13 ∧ e = 'r')

/-- Unique keys in one object level. -/
def noDupKeys : List (String × JsonVal) → Bool
  | [] => true
  | (k, _) :: t => !(t.any (·.1 == k)) && noDupKeys t

mutual

/-- Every object in the value has unique keys — true of everything
`json.loads` can produce. -/
def wfKeys : JsonVal → Bool
  | .jnull => true
  | .jbool _ => true
  | .jnum _ => true
  | .jstr _ => true
  | .jarr l => wfKeysArr l
  | .jobj l => noDupKeys l && wfKeysObj l

/-- `wfKeys` over array items. -/
def wfKeysArr : List JsonVal → Bool
  | [] => true
  | v :: vs => wfKeys v && wfKeysArr vs

/-- `wfKeys` over object item values. -/
def wfKeysObj : List (String × JsonVal) → Bool
  | [] => true
  | (_, v) :: ps => wfKeys v && wfKeysObj ps

end

mutual

/-- Two JSON values hold identical data: identical scalars, arrays
pointwise (element order significant), objects by matching key/value pairs
regardless of key order (values compared recursively the same way). -/
inductive JsonEquiv : JsonVal → JsonVal → Prop where
  | jnull : JsonEquiv .jnull .jnull
  | jbool (b : Bool) : JsonEquiv (.jbool b) (.jbool b)
  | jnum (s : {l : List Char // NumOk l}) : JsonEquiv (.jnum s) (.jnum s)
  | jstr (s : String) : JsonEquiv (.jstr s) (.jstr s)
  | jarr {l₁ l₂ : List JsonVal} :
      JsonEquivList l₁ l₂ → JsonEquiv (.jarr l₁) (.jarr l₂)
  | jobj {l₁ l₁' l₂ : List (String × JsonVal)} :
      l₁.Perm l₁' → JsonEquivPairs l₁' l₂ → JsonEquiv (.jobj l₁) (.jobj l₂)

/-- Pointwise `JsonEquiv` on lists. -/
inductive JsonEquivList : List JsonVal → List JsonVal → Prop where
  | nil : JsonEquivList [] []
  | cons {a b : JsonVal} {l₁ l₂ : List JsonVal} :
      JsonEquiv a b → JsonEquivList l₁ l₂ → JsonEquivList (a :: l₁) (b :: l₂)

/-- Pointwise key-preserving `JsonEquiv` on pair lists. -/
inductive JsonEquivPairs :
    List (String × JsonVal) → List (String × JsonVal) → Prop where
  | nil : JsonEquivPairs [] []
  | cons {k : String} {v w : JsonVal} {l₁ l₂ : List (String × JsonVal)} :
      JsonEquiv v w → JsonEquivPairs l₁ l₂ →
      JsonEquivPairs ((k, v) :: l₁) ((k, w) :: l₂)

end

/-! # Theorems -/

/-! ## Characterization of one loop iteration -/

theorem processLine_parse_error (parse : String → Except String JsonVal) (cb : Collab)
    (st : Session) (line : String) (e : String) (hp : parse line = .error e) :
    processLine parse cb st line =
      (st, [.emit (dumps (.jobj [("error", .jstr ("Invalid JSON payload: " ++ e))]))], .next) := by
  unfold processLine
  rw [hp]

theorem processLine_nonobject (parse : String → Except String JsonVal) (cb : Collab)
    (st : Session) (line : String) (v : JsonVal) (hp : parse line = .ok v)
    (hv : isObj v = false) :
    processLine parse cb st line =
      (st, [], .crash ("'" ++ pyTypeName v ++ "' object has no attribute 'get'")) := by
  unfold processLine
  rw [hp]
  cases v <;> simp_all [isObj]

theorem processLine_shutdown (parse : String → Except String JsonVal) (cb : Collab)
    (st : Session) (line : String) (pl : List (String × JsonVal))
    (hp : parse line = .ok (.jobj pl))
    (hsd : isCmd (pyGet pl "command") "__shutdown__" = true) :
    processLine parse cb st line =
      (st, [.emit (dumps (.jobj [("ok", .jbool true), ("command", .jstr "__shutdown__")]))],
       .halt) := by
  unfold processLine
  rw [hp]
  simp [hsd]

theorem processLine_missing_config (parse : String → Except String JsonVal) (cb : Collab)
    (st : Session) (line : String) (pl : List (String × JsonVal))
    (hp : parse line = .ok (.jobj pl))
    (hsd : isCmd (pyGet pl "command") "__shutdown__" = false)
    (hc : isObj (pyGet pl "config") = false) :
    processLine parse cb st line =
      (st, [.emit (dumps (.jobj [("error", .jstr "Missing manager configuration")]))], .next) := by
  unfold processLine
  rw [hp]
  simp only [hsd, if_false, Bool.false_eq_true]
  cases hv : pyGet pl "config" <;> simp_all [isObj]

theorem processLine_init_failure (parse : String → Except String JsonVal) (cb : Collab)
    (st : Session) (line : String) (pl cfg : List (String × JsonVal)) (e : String)
    (hp : parse line = .ok (.jobj pl))
    (hsd : isCmd (pyGet pl "command") "__shutdown__" = false)
    (hc : pyGet pl "config" = .jobj cfg)
    (he : (ensure_manager cb st.manager st.cachedHash cfg).1 = .error e) :
    processLine parse cb st line =
      (st, (ensure_manager cb st.manager st.cachedHash cfg).2 ++
        [.emit (dumps (.jobj [("error", .jstr ("Failed to initialize manager: " ++ e))]))],
       .next) := by
  unfold processLine
  rw [hp]
  simp [hsd, hc, he]

theorem processLine_resolved (parse : String → Except String JsonVal) (cb : Collab)
    (st : Session) (line : String) (pl cfg : List (String × JsonVal)) (m : Manager)
    (h : String) (hp : parse line = .ok (.jobj pl))
    (hsd : isCmd (pyGet pl "command") "__shutdown__" = false)
    (hc : pyGet pl "config" = .jobj cfg)
    (he : (ensure_manager cb st.manager st.cachedHash cfg).1 = .ok (m, h)) :
    processLine parse cb st line =
      (⟨some m, some h⟩,
       (ensure_manager cb st.manager st.cachedHash cfg).2 ++
         (dispatchCmd cb m pl (pyGet pl "command")).2 ++
         [.emit (dumps (dispatchCmd cb m pl (pyGet pl "command")).1)],
       .next) := by
  unfold processLine
  rw [hp]
  simp [hsd, hc, he]

theorem ensure_manager_ok_hash (cb : Collab) (mgr : Option Manager) (ch : Option String)
    (config : List (String × JsonVal)) (m : Manager) (h : String)
    (he : (ensure_manager cb mgr ch config).1 = .ok (m, h)) :
    h = fingerprint config ∧
      ((mgr = some m ∧ ch = some (fingerprint config)) ∨ (load_manager cb config).1 = .ok m) := by
  cases mgr with
  | none =>
    simp only [ensure_manager] at he
    cases hl : (load_manager cb config).1 with
    | error e => rw [hl] at he; simp [Except.map] at he
    | ok m' =>
      rw [hl] at he
      simp [Except.map] at he
      exact ⟨he.2.symm, .inr (congrArg Except.ok he.1)⟩
  | some m₀ =>
    simp only [ensure_manager] at he
    by_cases hch : ch = some (fingerprint config)
    · rw [if_pos hch] at he
      simp at he
      exact ⟨he.2.symm, .inl ⟨congrArg some he.1, hch⟩⟩
    · rw [if_neg hch] at he
      cases hl : (load_manager cb config).1 with
      | error e => rw [hl] at he; simp [Except.map] at he
      | ok m' =>
        rw [hl] at he
        simp [Except.map] at he
        exact ⟨he.2.symm, .inr (congrArg Except.ok he.1)⟩


/-! ## Helper lemmas about the resolution path -/

theorem ensure_cache_hit (cb : Collab) (m : Manager) (config : List (String × JsonVal)) :
    ensure_manager cb (some m) (some (fingerprint config)) config =
      (.ok (m, fingerprint config), []) := by
  simp [ensure_manager]

theorem countLoads_construct (cb : Collab) (config : List (String × JsonVal)) :
    countLoads (constructManager cb config).2 = 0 := by
  unfold constructManager
  split <;> simp [countLoads]

theorem countLoads_load_manager (cb : Collab) (config : List (String × JsonVal)) :
    countLoads (load_manager cb config).2 = 1 := by
  have hc := countLoads_construct cb config
  simp only [countLoads] at hc ⊢
  unfold load_manager
  split
  · cases h : cb.loadJson with
    | error e => simp [List.countP_cons]
    | ok o => cases o <;> simp [List.countP_cons, hc]
  · simp [List.countP_cons, hc]

theorem countLoads_ensure (cb : Collab) (mgr : Option Manager) (ch : Option String)
    (config : List (String × JsonVal)) :
    countLoads (ensure_manager cb mgr ch config).2 ≤ 1 := by
  have h := countLoads_load_manager cb config
  unfold ensure_manager
  cases mgr with
  | none => simpa using Nat.le_of_eq h
  | some m =>
    by_cases hch : ch = some (fingerprint config)
    · simp [hch, countLoads]
    · simp only [hch, if_false]
      simpa using Nat.le_of_eq h

theorem countLoads_reinforceStep (cb : Collab) (m : Manager)
    (reinf heat ttl : JsonVal) :
    countLoads (reinforceStep cb m reinf heat ttl).2 = 0 := by
  unfold reinforceStep
  split
  · split <;> simp [countLoads]
  · simp [countLoads]

theorem countLoads_afterRegister (cb : Collab) (m : Manager)
    (ids texts reinf heat ttl : JsonVal) :
    countLoads (afterRegister cb m ids texts reinf heat ttl).2 = 0 := by
  have hr := countLoads_reinforceStep cb m reinf heat ttl
  simp only [countLoads] at hr ⊢
  unfold afterRegister persist_manager
  split
  · simp [List.countP_cons, hr]
  · split <;> simp [List.countP_cons, List.countP_append, hr]

theorem countLoads_register (cb : Collab) (m : Manager)
    (payload : List (String × JsonVal)) :
    countLoads (register_and_reinforce cb m payload).2 = 0 := by
  unfold register_and_reinforce
  split
  · simp [countLoads]
  split
  · simp [countLoads]
  split
  · simp [countLoads]
  · exact countLoads_afterRegister cb m _ _ _ _ _

theorem countLoads_dispatchCmd (cb : Collab) (m : Manager)
    (pl : List (String × JsonVal)) (command : JsonVal) :
    countLoads (dispatchCmd cb m pl command).2 = 0 := by
  unfold dispatchCmd
  have hreg := countLoads_register cb m pl
  split
  · split <;> simpa using hreg
  · simp [countLoads]

/-! ## No collaborator step prints anything -/

theorem countEmits_append (a b : List Eff) :
    countEmits (a ++ b) = countEmits a + countEmits b := by
  simp [countEmits, outputsOf, List.filterMap_append]

theorem countEmits_constructManager (cb : Collab) (config : List (String × JsonVal)) :
    countEmits (constructManager cb config).2 = 0 := by
  unfold constructManager
  split <;> simp [countEmits, outputsOf]

theorem countEmits_load_manager (cb : Collab) (config : List (String × JsonVal)) :
    countEmits (load_manager cb config).2 = 0 := by
  have hc := countEmits_constructManager cb config
  simp only [countEmits, outputsOf] at hc ⊢
  unfold load_manager
  split
  · cases h : cb.loadJson with
    | error e => simp
    | ok o => cases o <;> simp [hc]
  · simp [hc]

theorem countEmits_ensure (cb : Collab) (mgr : Option Manager) (ch : Option String)
    (config : List (String × JsonVal)) :
    countEmits (ensure_manager cb mgr ch config).2 = 0 := by
  have h := countEmits_load_manager cb config
  unfold ensure_manager
  cases mgr with
  | none => simpa using h
  | some m =>
    by_cases hch : ch = some (fingerprint config)
    · simp [hch, countEmits, outputsOf]
    · simp only [hch, if_false]
      simpa using h

theorem countEmits_reinforceStep (cb : Collab) (m : Manager) (reinf heat ttl : JsonVal) :
    countEmits (reinforceStep cb m reinf heat ttl).2 = 0 := by
  unfold reinforceStep
  split
  · split <;> simp [countEmits, outputsOf]
  · simp [countEmits, outputsOf]

theorem countEmits_afterRegister (cb : Collab) (m : Manager)
    (ids texts reinf heat ttl : JsonVal) :
    countEmits (afterRegister cb m ids texts reinf heat ttl).2 = 0 := by
  have hr := countEmits_reinforceStep cb m reinf heat ttl
  simp only [countEmits, outputsOf] at hr ⊢
  unfold afterRegister persist_manager
  split
  · simp [hr]
  · split <;> simp [hr]

theorem countEmits_register (cb : Collab) (m : Manager)
    (payload : List (String × JsonVal)) :
    countEmits (register_and_reinforce cb m payload).2 = 0 := by
  unfold register_and_reinforce
  split
  · simp [countEmits, outputsOf]
  split
  · simp [countEmits, outputsOf]
  split
  · simp [countEmits, outputsOf]
  · exact countEmits_afterRegister cb m _ _ _ _ _

theorem countEmits_dispatchCmd (cb : Collab) (m : Manager)
    (pl : List (String × JsonVal)) (command : JsonVal) :
    countEmits (dispatchCmd cb m pl command).2 = 0 := by
  unfold dispatchCmd
  have hreg := countEmits_register cb m pl
  split
  · split <;> simpa using hreg
  · simp [countEmits, outputsOf]

/-- Every handled request prints exactly one line, and its control effect
is either "continue" or "halt" — never a crash — provided the payload is
an object or fails to parse. -/
theorem processLine_shape (parse : String → Except String JsonVal) (cb : Collab)
    (st : Session) (line : String) (hobj : ObjOrErr (parse line)) :
    ((processLine parse cb st line).2.2 = .next ∨
      (processLine parse cb st line).2.2 = .halt) ∧
    countEmits (processLine parse cb st line).2.1 = 1 := by
  cases hp : parse line with
  | error e =>
    rw [processLine_parse_error parse cb st line e hp]
    exact ⟨.inl rfl, rfl⟩
  | ok v =>
    cases v with
    | jobj pl =>
      by_cases hsd : isCmd (pyGet pl "command") "__shutdown__" = true
      · rw [processLine_shutdown parse cb st line pl hp hsd]
        exact ⟨.inr rfl, rfl⟩
      · replace hsd : isCmd (pyGet pl "command") "__shutdown__" = false := by
          simpa using hsd
        cases hv : pyGet pl "config" with
        | jobj cfg =>
          cases he : (ensure_manager cb st.manager st.cachedHash cfg).1 with
          | error e =>
            rw [processLine_init_failure parse cb st line pl cfg e hp hsd hv he]
            refine ⟨.inl rfl, ?_⟩
            rw [countEmits_append, countEmits_ensure]
            rfl
          | ok mh =>
            obtain ⟨m, h⟩ := mh
            rw [processLine_resolved parse cb st line pl cfg m h hp hsd hv he]
            refine ⟨.inl rfl, ?_⟩
            rw [countEmits_append, countEmits_append, countEmits_ensure,
              countEmits_dispatchCmd]
            rfl
        | jnull =>
          rw [processLine_missing_config parse cb st line pl hp hsd (by rw [hv]; rfl)]
          exact ⟨.inl rfl, rfl⟩
        | jbool b =>
          rw [processLine_missing_config parse cb st line pl hp hsd (by rw [hv]; rfl)]
          exact ⟨.inl rfl, rfl⟩
        | jnum n =>
          rw [processLine_missing_config parse cb st line pl hp hsd (by rw [hv]; rfl)]
          exact ⟨.inl rfl, rfl⟩
        | jstr s =>
          rw [processLine_missing_config parse cb st line pl hp hsd (by rw [hv]; rfl)]
          exact ⟨.inl rfl, rfl⟩
        | jarr l =>
          rw [processLine_missing_config parse cb st line pl hp hsd (by rw [hv]; rfl)]
          exact ⟨.inl rfl, rfl⟩
    | jnull => rw [hp] at hobj; exact absurd hobj (by simp [ObjOrErr])
    | jbool b => rw [hp] at hobj; exact absurd hobj (by simp [ObjOrErr])
    | jnum n => rw [hp] at hobj; exact absurd hobj (by simp [ObjOrErr])
    | jstr s => rw [hp] at hobj; exact absurd hobj (by simp [ObjOrErr])
    | jarr l => rw [hp] at hobj; exact absurd hobj (by simp [ObjOrErr])

/-- The loop consumes a request only through its control effect: the
"continue" unfolding. -/
theorem runMain_cons_next (parse : String → Except String JsonVal) (raw : String)
    (cb : Collab) (rest : List (String × Collab)) (st : Session)
    (hne : ¬pyStrip raw = "")
    (hctl : (processLine parse cb st (pyStrip raw)).2.2 = .next) :
    runMain parse ((raw, cb) :: rest) st =
      ((processLine parse cb st (pyStrip raw)).2.1 ++
         (runMain parse rest (processLine parse cb st (pyStrip raw)).1).1,
       (runMain parse rest (processLine parse cb st (pyStrip raw)).1).2) := by
  rw [runMain]
  rw [if_neg hne, hctl]

/-- The "halt" unfolding of the loop. -/
theorem runMain_cons_halt (parse : String → Except String JsonVal) (raw : String)
    (cb : Collab) (rest : List (String × Collab)) (st : Session)
    (hne : ¬pyStrip raw = "")
    (hctl : (processLine parse cb st (pyStrip raw)).2.2 = .halt) :
    runMain parse ((raw, cb) :: rest) st =
      ((processLine parse cb st (pyStrip raw)).2.1, .shutdown) := by
  rw [runMain]
  rw [if_neg hne, hctl]

/-- The "blank line" unfolding of the loop. -/
theorem runMain_cons_blank (parse : String → Except String JsonVal) (raw : String)
    (cb : Collab) (rest : List (String × Collab)) (st : Session)
    (hb : pyStrip raw = "") :
    runMain parse ((raw, cb) :: rest) st = runMain parse rest st := by
  rw [runMain]
  rw [if_pos hb]

theorem countLoads_append (a b : List Eff) :
    countLoads (a ++ b) = countLoads a + countLoads b := by
  simp [countLoads, List.countP_append]

theorem countLoads_emit (s : String) : countLoads [.emit s] = 0 := by
  simp [countLoads]

theorem countLoads_processLine (parse : String → Except String JsonVal) (cb : Collab)
    (st : Session) (line : String) :
    countLoads (processLine parse cb st line).2.1 ≤ 1 := by
  cases hp : parse line with
  | error e =>
    rw [processLine_parse_error parse cb st line e hp]
    simp [countLoads]
  | ok v =>
    cases v with
    | jobj pl =>
      by_cases hsd : isCmd (pyGet pl "command") "__shutdown__" = true
      · rw [processLine_shutdown parse cb st line pl hp hsd]
        simp [countLoads]
      · replace hsd : isCmd (pyGet pl "command") "__shutdown__" = false := by
          simpa using hsd
        cases hv : pyGet pl "config" with
        | jobj cfg =>
          have hens := countLoads_ensure cb st.manager st.cachedHash cfg
          cases he : (ensure_manager cb st.manager st.cachedHash cfg).1 with
          | error e =>
            rw [processLine_init_failure parse cb st line pl cfg e hp hsd hv he]
            rw [countLoads_append]
            simpa [countLoads] using hens
          | ok mh =>
            obtain ⟨m, h⟩ := mh
            rw [processLine_resolved parse cb st line pl cfg m h hp hsd hv he]
            rw [countLoads_append, countLoads_append, countLoads_emit,
              countLoads_dispatchCmd]
            simpa using hens
        | jnull =>
          rw [processLine_missing_config parse cb st line pl hp hsd (by rw [hv]; rfl)]
          simp [countLoads]
        | jbool b =>
          rw [processLine_missing_config parse cb st line pl hp hsd (by rw [hv]; rfl)]
          simp [countLoads]
        | jnum n =>
          rw [processLine_missing_config parse cb st line pl hp hsd (by rw [hv]; rfl)]
          simp [countLoads]
        | jstr s =>
          rw [processLine_missing_config parse cb st line pl hp hsd (by rw [hv]; rfl)]
          simp [countLoads]
        | jarr l =>
          rw [processLine_missing_config parse cb st line pl hp hsd (by rw [hv]; rfl)]
          simp [countLoads]
    | jnull =>
      rw [processLine_nonobject parse cb st line _ hp rfl]; simp [countLoads]
    | jbool b =>
      rw [processLine_nonobject parse cb st line _ hp rfl]; simp [countLoads]
    | jnum n =>
      rw [processLine_nonobject parse cb st line _ hp rfl]; simp [countLoads]
    | jstr s =>
      rw [processLine_nonobject parse cb st line _ hp rfl]; simp [countLoads]
    | jarr l =>
      rw [processLine_nonobject parse cb st line _ hp rfl]; simp [countLoads]

theorem countLoads_processLine_hit (parse : String → Except String JsonVal) (cb : Collab)
    (st : Session) (line : String) (pl cfg : List (String × JsonVal)) (m : Manager)
    (hp : parse line = .ok (.jobj pl))
    (hsd : isCmd (pyGet pl "command") "__shutdown__" = false)
    (hc : pyGet pl "config" = .jobj cfg)
    (hm : st.manager = some m)
    (hch : st.cachedHash = some (fingerprint cfg)) :
    countLoads (processLine parse cb st line).2.1 = 0 := by
  have hhit : ensure_manager cb st.manager st.cachedHash cfg =
      (.ok (m, fingerprint cfg), []) := by
    rw [hm, hch]; simp [ensure_manager]
  have he : (ensure_manager cb st.manager st.cachedHash cfg).1 = .ok (m, fingerprint cfg) := by
    rw [hhit]
  rw [processLine_resolved parse cb st line pl cfg m (fingerprint cfg) hp hsd hc he]
  rw [show (ensure_manager cb st.manager st.cachedHash cfg).2 = [] from by rw [hhit]]
  rw [List.nil_append, countLoads_append, countLoads_emit, countLoads_dispatchCmd]

/-! ## Claim C2 -/

/-- C2 (counterexample to the unqualified "at most once" clause): when the
first resolution of a configuration fails (here: the empty config, whose
`config['capacity']` lookup raises during construction), nothing is cached,
so a second request with the identical configuration enters the
load-or-construct path again — two runs, not at most one. -/
theorem claim2_counterexample :
    countLoads (runMain parseTiny [("a", cbStub), ("a", cbStub)] ⟨none, none⟩).1 = 2 := by
  decide

/-- C2 (amended): if the session holds a handle and the cached fingerprint
equals the incoming config's fingerprint, `ensure_manager` returns that
very handle with that fingerprint, consulting no collaborator operation and
recording no load effect; consequently, across two consecutive requests
with identical configuration *whose first resolution succeeds*, the
load-or-construct path runs at most once. -/
theorem claim2_cache_hit :
    (∀ (cb : Collab) (m : Manager) (ch : Option String) (config : List (String × JsonVal)),
      ch = some (fingerprint config) →
      ensure_manager cb (some m) ch config = (.ok (m, fingerprint config), [])) ∧
    (∀ (parse : String → Except String JsonVal) (cb₁ cb₂ : Collab) (st : Session)
      (l₁ l₂ : String) (p₁ p₂ cfg : List (String × JsonVal)) (m : Manager) (h : String),
      parse l₁ = .ok (.jobj p₁) → parse l₂ = .ok (.jobj p₂) →
      isCmd (pyGet p₁ "command") "__shutdown__" = false →
      isCmd (pyGet p₂ "command") "__shutdown__" = false →
      pyGet p₁ "config" = .jobj cfg → pyGet p₂ "config" = .jobj cfg →
      (ensure_manager cb₁ st.manager st.cachedHash cfg).1 = .ok (m, h) →
      countLoads ((processLine parse cb₁ st l₁).2.1 ++
        (processLine parse cb₂ (processLine parse cb₁ st l₁).1 l₂).2.1) ≤ 1) := by
  constructor
  · intro cb m ch config hch
    subst hch
    simp [ensure_manager]
  · intro parse cb₁ cb₂ st l₁ l₂ p₁ p₂ cfg m h hp₁ hp₂ hsd₁ hsd₂ hc₁ hc₂ he
    obtain ⟨hh, _⟩ := ensure_manager_ok_hash cb₁ st.manager st.cachedHash cfg m h he
    have h1 := processLine_resolved parse cb₁ st l₁ p₁ cfg m h hp₁ hsd₁ hc₁ he
    have hm1 : (processLine parse cb₁ st l₁).1.manager = some m := by rw [h1]
    have hch1 : (processLine parse cb₁ st l₁).1.cachedHash = some (fingerprint cfg) := by
      rw [h1, hh]
    have c1 := countLoads_processLine parse cb₁ st l₁
    have c2 := countLoads_processLine_hit parse cb₂ (processLine parse cb₁ st l₁).1
      l₂ p₂ cfg m hp₂ hsd₂ hc₂ hm1 hch1
    rw [countLoads_append]
    omega

/-- Witness for C2: a concrete cache hit returns the cached handle with no
effects. -/
theorem claim2_cache_hit_witness :
    ensure_manager cbStub (some 5) (some (fingerprint [])) [] =
      (.ok (5, fingerprint []), []) :=
  claim2_cache_hit.1 cbStub 5 (some (fingerprint [])) [] rfl

/-! ## Claim C6 -/

/-- C6: on the load-or-construct path, a loadable persisted state wins and
the configuration is not consulted (the result is the same for every
config); only when the state file is absent or unloadable is a fresh
manager constructed, from the full fourteen-parameter set. -/
theorem claim6_load_or_construct :
    (∀ (cb : Collab) (m : Manager) (config : List (String × JsonVal)),
      cb.stateExists = true → cb.loadJson = .ok (some m) →
      load_manager cb config = (.ok m, [.loadAttempt, .loadJsonCall])) ∧
    (∀ (cb : Collab) (config : List (String × JsonVal)) (args : ConstructArgs),
      (cb.stateExists = false ∨ cb.loadJson = .ok none) →
      List.lookup "capacity" config = some args.capacity →
      List.lookup "base_ttl" config = some args.base_ttl →
      List.lookup "decay_half_life" config = some args.decay_half_life →
      List.lookup "prune_sample" config = some args.prune_sample →
      List.lookup "prune_target_ratio" config = some args.prune_target_ratio →
      List.lookup "recency_half_life_ticks" config = some args.recency_half_life_ticks →
      List.lookup "habituation_start" config = some args.habituation_start →
      List.lookup "habituation_scale" config = some args.habituation_scale →
      List.lookup "boredom_weight" config = some args.boredom_weight →
      List.lookup "frontier_novelty_threshold" config = some args.frontier_novelty_threshold →
      List.lookup "frontier_patience" config = some args.frontier_patience →
      List.lookup "diffusion_interval" config = some args.diffusion_interval →
      List.lookup "diffusion_kappa" config = some args.diffusion_kappa →
      List.lookup "exploration_churn_window" config = some args.exploration_churn_window →
      load_manager cb config =
        (cb.construct args,
         (if cb.stateExists then [.loadAttempt, .loadJsonCall] else [.loadAttempt]) ++
           [.constructCall args])) := by
  constructor
  · intro cb m config hse hlj
    simp [load_manager, hse, hlj]
  · intro cb config args hno h1 h2 h3 h4 h5 h6 h7 h8 h9 h10 h11 h12 h13 h14
    have hargs : getArgs config = .ok args := by
      simp only [getArgs, h1, h2, h3, h4, h5, h6, h7, h8, h9, h10, h11, h12, h13, h14]
      rfl
    have hcm : constructManager cb config = (cb.construct args, [.constructCall args]) := by
      simp [constructManager, hargs]
    rcases hno with hse | hlj
    · simp [load_manager, hse, hcm]
    · cases hse : cb.stateExists
      · simp [load_manager, hse, hcm]
      · simp [load_manager, hse, hlj, hcm]

/-- Witness for C6: both branches evaluated on concrete oracles — a loaded
state (handle 3) wins for any config, and a fresh construction assembles
the fourteen parameters of `cfg14`. -/
theorem claim6_witness :
    load_manager { cbStub with stateExists := true, loadJson := .ok (some 3) } [] =
      (.ok 3, [.loadAttempt, .loadJsonCall]) ∧
    load_manager cbStub cfg14 = (.ok 7, [.loadAttempt, .constructCall args14]) :=
  ⟨claim6_load_or_construct.1 _ 3 [] rfl rfl,
   by
    have h := claim6_load_or_construct.2 cbStub cfg14 args14 (.inl rfl)
      rfl rfl rfl rfl rfl rfl rfl rfl rfl rfl rfl rfl rfl rfl
    simpa [cbStub] using h⟩

/-! ## Claim C3 -/

/-- C3: when the load-or-construct step raises, `main` emits the
`Failed to initialize manager` response and the session is exactly what it
was before the attempt; consequently a following request carrying the
previously cached configuration is still served as a pure cache hit. -/
theorem claim3_init_failure_preserves_session :
    (∀ (parse : String → Except String JsonVal) (cb : Collab) (st : Session)
      (line : String) (pl cfg : List (String × JsonVal)) (e : String),
      parse line = .ok (.jobj pl) →
      isCmd (pyGet pl "command") "__shutdown__" = false →
      pyGet pl "config" = .jobj cfg →
      (ensure_manager cb st.manager st.cachedHash cfg).1 = .error e →
      processLine parse cb st line =
        (st, (ensure_manager cb st.manager st.cachedHash cfg).2 ++
          [.emit (dumps (.jobj [("error", .jstr ("Failed to initialize manager: " ++ e))]))],
         .next)) ∧
    (∀ (cb₂ : Collab) (m₀ : Manager) (st : Session) (cfg₀ : List (String × JsonVal)),
      st.manager = some m₀ → st.cachedHash = some (fingerprint cfg₀) →
      ensure_manager cb₂ st.manager st.cachedHash cfg₀ =
        (.ok (m₀, fingerprint cfg₀), [])) := by
  constructor
  · intro parse cb st line pl cfg e hp hsd hc he
    exact processLine_init_failure parse cb st line pl cfg e hp hsd hc he
  · intro cb₂ m₀ st cfg₀ hm hch
    rw [hm, hch]
    simp [ensure_manager]

/-- Witness for C3: a concrete failed resolution (empty config, whose
`capacity` lookup raises) leaves a previously cached `(handle 9, cfg14)`
session untouched, and the following `cfg14` request is a pure cache hit. -/
theorem claim3_witness :
    processLine parseTiny cbStub ⟨some 9, some (fingerprint cfg14)⟩ "a" =
      (⟨some 9, some (fingerprint cfg14)⟩,
       (ensure_manager cbStub (some 9) (some (fingerprint cfg14)) []).2 ++
         [.emit (dumps (.jobj
           [("error", .jstr ("Failed to initialize manager: " ++ "'capacity'"))]))],
       .next) ∧
    ensure_manager cbStub (some 9) (some (fingerprint cfg14)) cfg14 =
      (.ok (9, fingerprint cfg14), []) :=
  ⟨claim3_init_failure_preserves_session.1 parseTiny cbStub
      ⟨some 9, some (fingerprint cfg14)⟩ "a" [("config", .jobj [])] [] "'capacity'"
      rfl rfl rfl rfl,
   claim3_init_failure_preserves_session.2 cbStub 9 ⟨some 9, some (fingerprint cfg14)⟩
      cfg14 rfl rfl⟩

/-! ## Claim C5 -/

/-- C5: the dispatch loop's cache invariant — the session starts empty,
and every iteration against the service's collaborator preserves the
property that a held handle is exactly the one that collaborator's
load-or-construct resolution produced for the configuration whose
fingerprint is cached alongside it. -/
theorem claim5_session_invariant :
    (∀ cb : Collab, SessionInv cb ⟨none, none⟩) ∧
    ∀ (parse : String → Except String JsonVal) (cb : Collab) (st : Session)
      (line : String),
      SessionInv cb st → SessionInv cb (processLine parse cb st line).1 := by
  constructor
  · intro cb
    exact .inl ⟨rfl, rfl⟩
  · intro parse cb st line hinv
    cases hp : parse line with
    | error e =>
      rw [processLine_parse_error parse cb st line e hp]
      exact hinv
    | ok v =>
      cases v with
      | jobj pl =>
        by_cases hsd : isCmd (pyGet pl "command") "__shutdown__" = true
        · rw [processLine_shutdown parse cb st line pl hp hsd]
          exact hinv
        · replace hsd : isCmd (pyGet pl "command") "__shutdown__" = false := by
            simpa using hsd
          cases hv : pyGet pl "config" with
          | jobj cfg =>
            cases he : (ensure_manager cb st.manager st.cachedHash cfg).1 with
            | error e =>
              rw [processLine_init_failure parse cb st line pl cfg e hp hsd hv he]
              exact hinv
            | ok mh =>
              obtain ⟨m, h⟩ := mh
              rw [processLine_resolved parse cb st line pl cfg m h hp hsd hv he]
              obtain ⟨hh, hcase⟩ :=
                ensure_manager_ok_hash cb st.manager st.cachedHash cfg m h he
              subst hh
              rcases hcase with ⟨hm, hch⟩ | hload
              · rcases hinv with ⟨hnone, -⟩ | ⟨m', config', hm', hch', hl'⟩
                · rw [hnone] at hm; cases hm
                · rw [hm'] at hm
                  injection hm with hm
                  subst hm
                  rw [hch'] at hch
                  injection hch with hch
                  exact .inr ⟨m', config', rfl, by rw [hch], hl'⟩
              · exact .inr ⟨m, cfg, rfl, rfl, hload⟩
          | jnull =>
            rw [processLine_missing_config parse cb st line pl hp hsd (by rw [hv]; rfl)]
            exact hinv
          | jbool b =>
            rw [processLine_missing_config parse cb st line pl hp hsd (by rw [hv]; rfl)]
            exact hinv
          | jnum n =>
            rw [processLine_missing_config parse cb st line pl hp hsd (by rw [hv]; rfl)]
            exact hinv
          | jstr s =>
            rw [processLine_missing_config parse cb st line pl hp hsd (by rw [hv]; rfl)]
            exact hinv
          | jarr l =>
            rw [processLine_missing_config parse cb st line pl hp hsd (by rw [hv]; rfl)]
            exact hinv
      | jnull => rw [processLine_nonobject parse cb st line _ hp rfl]; exact hinv
      | jbool b => rw [processLine_nonobject parse cb st line _ hp rfl]; exact hinv
      | jnum n => rw [processLine_nonobject parse cb st line _ hp rfl]; exact hinv
      | jstr s => rw [processLine_nonobject parse cb st line _ hp rfl]; exact hinv
      | jarr l => rw [processLine_nonobject parse cb st line _ hp rfl]; exact hinv

/-- Witness for C5: the invariant holds of the empty initial session and is
preserved across a concrete resolving request. -/
theorem claim5_witness :
    SessionInv cbStub ⟨none, none⟩ ∧
    SessionInv cbStub (processLine parseTiny cbStub ⟨none, none⟩ "b").1 :=
  ⟨claim5_session_invariant.1 cbStub,
   claim5_session_invariant.2 parseTiny cbStub ⟨none, none⟩ "b"
     (claim5_session_invariant.1 cbStub)⟩

/-! ## Claims C7 and C8: the register pipeline -/

theorem any_key_eq_lookup_isSome (l : List (String × JsonVal)) (k : String) :
    l.any (·.1 == k) = (List.lookup k l).isSome := by
  induction l with
  | nil => rfl
  | cons p t ih =>
    obtain ⟨a, b⟩ := p
    by_cases hk : k = a
    · subst hk
      simp [List.lookup]
    · have h1 : (a == k) = false := by simp [Ne.symm hk]
      have h2 : (k == a) = false := by simp [hk]
      simp [List.lookup, h1, h2, ih]

/-- What `buildResults` forwards for an object-valued `reinforce`: the
`ids` entry exactly when the caller supplied `ids`, the `distances` entry
exactly when the caller supplied `distances`, and nothing else. -/
theorem buildResults_obj (rl : List (String × JsonVal)) :
    buildResults (.jobj rl) =
      .ok ((match List.lookup "ids" rl with
            | some v => [("ids", v)] | none => []) ++
           (match List.lookup "distances" rl with
            | some v => [("distances", v)] | none => [])) := by
  unfold buildResults pyContains pyIndex
  cases hi : List.lookup "ids" rl <;> cases hd : List.lookup "distances" rl <;>
    simp [any_key_eq_lookup_isSome, hi, hd, Except.map, Except.bind, Except.pure, bind, pure]

theorem pyTruthy_obj_nonempty (rl : List (String × JsonVal)) (h : rl ≠ []) :
    pyTruthy (.jobj rl) = true := by
  cases rl with
  | nil => exact absurd rfl h
  | cons p t => rfl

theorem countSaves_reinforceStep (cb : Collab) (m : Manager) (reinf heat ttl : JsonVal) :
    countSaves (reinforceStep cb m reinf heat ttl).2 = 0 := by
  unfold reinforceStep
  split
  · split <;> simp [countSaves]
  · simp [countSaves]

theorem countReinforces_reinforceStep_false (cb : Collab) (m : Manager)
    (reinf heat ttl : JsonVal) (h : pyTruthy reinf = false) :
    (reinforceStep cb m reinf heat ttl).2 = [] := by
  unfold reinforceStep
  rw [h]
  simp

/-- C7: for an object-valued non-empty `reinforce`, the forwarded
instruction contains `ids` exactly when supplied and `distances` exactly
when supplied, nothing else, together with the payload's `heat_gain`
(default `0.5`) and `ttl_boost` (default `60`); an absent or empty
`reinforce` causes no reinforce call at all. -/
theorem claim7_reinforce_forwarding :
    (∀ (cb : Collab) (m : Manager) (payload rl : List (String × JsonVal))
       (ids texts : JsonVal),
      List.lookup "ids" payload = some ids →
      List.lookup "texts" payload = some texts →
      pyGetD payload "reinforce" (.jobj []) = .jobj rl → rl ≠ [] →
      cb.registerChunks m ids texts = .ok () →
      ∃ rest,
        (register_and_reinforce cb m payload).2 =
          .registerCall m ids texts ::
            .reinforceCall m
              ((match List.lookup "ids" rl with
                | some v => [("ids", v)] | none => []) ++
               (match List.lookup "distances" rl with
                | some v => [("distances", v)] | none => []))
              (pyGetD payload "heat_gain" (numLit "0.5" (by decide)))
              (pyGetD payload "ttl_boost" (numLit "60" (by decide))) :: rest ∧
          countReinforces rest = 0) ∧
    (∀ (cb : Collab) (m : Manager) (payload : List (String × JsonVal)),
      (List.lookup "reinforce" payload = none ∨
        List.lookup "reinforce" payload = some (.jobj [])) →
      countReinforces (register_and_reinforce cb m payload).2 = 0) := by
  constructor
  · intro cb m payload rl ids texts hids htexts hreinf hne hreg
    unfold register_and_reinforce
    simp only [hids, htexts, hreg]
    unfold afterRegister
    rw [hreinf]
    have hstep : reinforceStep cb m (.jobj rl)
        (pyGetD payload "heat_gain" (numLit "0.5" (by decide)))
        (pyGetD payload "ttl_boost" (numLit "60" (by decide))) =
        (cb.reinforceOp m
          ((match List.lookup "ids" rl with
            | some v => [("ids", v)] | none => []) ++
           (match List.lookup "distances" rl with
            | some v => [("distances", v)] | none => []))
          (pyGetD payload "heat_gain" (numLit "0.5" (by decide)))
          (pyGetD payload "ttl_boost" (numLit "60" (by decide))),
         [.reinforceCall m
          ((match List.lookup "ids" rl with
            | some v => [("ids", v)] | none => []) ++
           (match List.lookup "distances" rl with
            | some v => [("distances", v)] | none => []))
          (pyGetD payload "heat_gain" (numLit "0.5" (by decide)))
          (pyGetD payload "ttl_boost" (numLit "60" (by decide)))]) := by
      unfold reinforceStep
      rw [pyTruthy_obj_nonempty rl hne, buildResults_obj rl]
      simp
    rw [hstep]
    cases hro : cb.reinforceOp m
        ((match List.lookup "ids" rl with
          | some v => [("ids", v)] | none => []) ++
         (match List.lookup "distances" rl with
          | some v => [("distances", v)] | none => []))
        (pyGetD payload "heat_gain" (numLit "0.5" (by decide)))
        (pyGetD payload "ttl_boost" (numLit "60" (by decide))) with
    | error e =>
      refine ⟨[], ?_, by simp [countReinforces]⟩
      simp [hro]
    | ok u =>
      cases hs : cb.save m with
      | error e =>
        refine ⟨[.saveCall m], ?_, by simp [countReinforces]⟩
        simp [hro, hs, persist_manager]
      | ok v =>
        refine ⟨[.saveCall m], ?_, by simp [countReinforces]⟩
        simp [hro, hs, persist_manager]
  · intro cb m payload hre
    have hreinf : pyGetD payload "reinforce" (.jobj []) = .jobj [] := by
      rcases hre with h | h <;> simp [pyGetD, h]
    unfold register_and_reinforce
    cases hids : List.lookup "ids" payload with
    | none => simp [countReinforces]
    | some ids =>
      simp only [hids]
      cases htexts : List.lookup "texts" payload with
      | none => simp [countReinforces]
      | some texts =>
        simp only [htexts]
        cases hreg : cb.registerChunks m ids texts with
        | error e => simp only [hreg]; simp [countReinforces]
        | ok u =>
          simp only [hreg]
          unfold afterRegister
          rw [hreinf]
          have hempty := countReinforces_reinforceStep_false cb m (.jobj [])
            (pyGetD payload "heat_gain" (numLit "0.5" (by decide)))
            (pyGetD payload "ttl_boost" (numLit "60" (by decide))) rfl
          have hnone : (reinforceStep cb m (.jobj [])
              (pyGetD payload "heat_gain" (numLit "0.5" (by decide)))
              (pyGetD payload "ttl_boost" (numLit "60" (by decide)))).1 = .ok () := by
            unfold reinforceStep
            rfl
          simp only [hempty, hnone]
          cases hs : cb.save m with
          | error e => simp only [persist_manager, hs]; simp [countReinforces]
          | ok v => simp only [persist_manager, hs]; simp [countReinforces]

/-- Witness for C7: a register payload whose `reinforce` object supplies
only `ids` forwards an instruction containing only `ids` (with the default
`heat_gain`/`ttl_boost`), and a payload with no `reinforce` at all
produces no reinforce call. -/
theorem claim7_witness :
    (∃ rest,
      (register_and_reinforce cbStub 7
        [("ids", .jarr [.jstr "a"]), ("texts", .jarr [.jstr "x"]),
         ("reinforce", .jobj [("ids", .jarr [.jstr "a"])])]).2 =
        .registerCall 7 (.jarr [.jstr "a"]) (.jarr [.jstr "x"]) ::
          .reinforceCall 7 [("ids", .jarr [.jstr "a"])]
            (numLit "0.5" (by decide)) (numLit "60" (by decide)) :: rest ∧
        countReinforces rest = 0) ∧
    countReinforces (register_and_reinforce cbStub 7
      [("ids", .jarr [.jstr "a"]), ("texts", .jarr [.jstr "x"])]).2 = 0 :=
  ⟨claim7_reinforce_forwarding.1 cbStub 7
      [("ids", .jarr [.jstr "a"]), ("texts", .jarr [.jstr "x"]),
       ("reinforce", .jobj [("ids", .jarr [.jstr "a"])])]
      [("ids", .jarr [.jstr "a"])] (.jarr [.jstr "a"]) (.jarr [.jstr "x"])
      rfl rfl rfl (by simp) rfl,
   claim7_reinforce_forwarding.2 cbStub 7
      [("ids", .jarr [.jstr "a"]), ("texts", .jarr [.jstr "x"])] (.inl rfl)⟩

/-- C8: persistence is invoked exactly once per successful register call
and only as the last step (after register and reinforcement both
succeeded); a register failure or a reinforce failure skips the save
entirely. -/
theorem claim8_save_once_after_success :
    (∀ (cb : Collab) (m : Manager) (payload : List (String × JsonVal)) (r : JsonVal)
       (effs : List Eff),
      register_and_reinforce cb m payload = (.ok r, effs) →
      countSaves effs = 1 ∧ effs.getLast? = some (.saveCall m)) ∧
    (∀ (cb : Collab) (m : Manager) (payload : List (String × JsonVal))
       (ids texts : JsonVal) (e : String),
      List.lookup "ids" payload = some ids →
      List.lookup "texts" payload = some texts →
      cb.registerChunks m ids texts = .error e →
      register_and_reinforce cb m payload = (.error e, [.registerCall m ids texts])) ∧
    (∀ (cb : Collab) (m : Manager) (payload : List (String × JsonVal))
       (ids texts : JsonVal) (e : String),
      List.lookup "ids" payload = some ids →
      List.lookup "texts" payload = some texts →
      cb.registerChunks m ids texts = .ok () →
      (reinforceStep cb m (pyGetD payload "reinforce" (.jobj []))
        (pyGetD payload "heat_gain" (numLit "0.5" (by decide)))
        (pyGetD payload "ttl_boost" (numLit "60" (by decide)))).1 = .error e →
      (register_and_reinforce cb m payload).1 = .error e ∧
        countSaves (register_and_reinforce cb m payload).2 = 0) := by
  refine ⟨?_, ?_, ?_⟩
  · intro cb m payload r effs h
    unfold register_and_reinforce at h
    cases hids : List.lookup "ids" payload with
    | none => rw [hids] at h; simp at h
    | some ids =>
      rw [hids] at h
      cases htexts : List.lookup "texts" payload with
      | none => simp only [htexts] at h; simp at h
      | some texts =>
        simp only [htexts] at h
        cases hreg : cb.registerChunks m ids texts with
        | error e => simp only [hreg] at h; simp at h
        | ok u =>
          simp only [hreg] at h
          unfold afterRegister at h
          cases hrs : (reinforceStep cb m (pyGetD payload "reinforce" (.jobj []))
              (pyGetD payload "heat_gain" (numLit "0.5" (by decide)))
              (pyGetD payload "ttl_boost" (numLit "60" (by decide)))).1 with
          | error e => rw [hrs] at h; simp at h
          | ok v =>
            rw [hrs] at h
            cases hs : cb.save m with
            | error e => simp only [persist_manager, hs] at h; simp at h
            | ok w =>
              simp only [persist_manager, hs] at h
              have heffs : Eff.registerCall m ids texts ::
                  ((reinforceStep cb m (pyGetD payload "reinforce" (.jobj []))
                    (pyGetD payload "heat_gain" (numLit "0.5" (by decide)))
                    (pyGetD payload "ttl_boost" (numLit "60" (by decide)))).2 ++
                   [Eff.saveCall m]) = effs := congrArg Prod.snd h
              rw [← heffs]
              have hz := countSaves_reinforceStep cb m (pyGetD payload "reinforce" (.jobj []))
                (pyGetD payload "heat_gain" (numLit "0.5" (by decide)))
                (pyGetD payload "ttl_boost" (numLit "60" (by decide)))
              constructor
              · simp only [countSaves, List.countP_cons, List.countP_append] at hz ⊢
                simp [hz]
              · rw [show Eff.registerCall m ids texts ::
                    ((reinforceStep cb m (pyGetD payload "reinforce" (.jobj []))
                      (pyGetD payload "heat_gain" (numLit "0.5" (by decide)))
                      (pyGetD payload "ttl_boost" (numLit "60" (by decide)))).2 ++
                     [Eff.saveCall m]) =
                    (Eff.registerCall m ids texts ::
                      (reinforceStep cb m (pyGetD payload "reinforce" (.jobj []))
                      (pyGetD payload "heat_gain" (numLit "0.5" (by decide)))
                      (pyGetD payload "ttl_boost" (numLit "60" (by decide)))).2) ++
                     [Eff.saveCall m] from by simp]
                exact List.getLast?_concat _
  · intro cb m payload ids texts e hids htexts hreg
    unfold register_and_reinforce
    simp only [hids, htexts, hreg]
  · intro cb m payload ids texts e hids htexts hreg hrs
    unfold register_and_reinforce
    simp only [hids, htexts, hreg]
    unfold afterRegister
    simp only [hrs]
    have hz := countSaves_reinforceStep cb m (pyGetD payload "reinforce" (.jobj []))
      (pyGetD payload "heat_gain" (numLit "0.5" (by decide)))
      (pyGetD payload "ttl_boost" (numLit "60" (by decide)))
    simp only [countSaves, List.countP_cons] at hz ⊢
    simp [hz]

/-- Witness for C8: a concrete register call with no `reinforce` saves
exactly once, as the final effect; a failing register and a failing
reinforce both skip the save. -/
theorem claim8_witness :
    (countSaves [Eff.registerCall 7 (.jarr []) (.jarr []), Eff.saveCall 7] = 1 ∧
      [Eff.registerCall 7 (.jarr []) (.jarr []), Eff.saveCall 7].getLast? =
        some (.saveCall 7)) ∧
    register_and_reinforce { cbStub with registerChunks := fun _ _ _ => .error "rfail" } 7
      [("ids", .jarr []), ("texts", .jarr [])] =
      (.error "rfail", [.registerCall 7 (.jarr []) (.jarr [])]) ∧
    ((register_and_reinforce { cbStub with reinforceOp := fun _ _ _ _ => .error "boom" } 7
        [("ids", .jarr []), ("texts", .jarr []),
         ("reinforce", .jobj [("ids", .jarr [])])]).1 = .error "boom" ∧
      countSaves (register_and_reinforce
        { cbStub with reinforceOp := fun _ _ _ _ => .error "boom" } 7
        [("ids", .jarr []), ("texts", .jarr []),
         ("reinforce", .jobj [("ids", .jarr [])])]).2 = 0) :=
  ⟨claim8_save_once_after_success.1 cbStub 7 [("ids", .jarr []), ("texts", .jarr [])]
      (.jobj [("stats", .jnull), ("events", .jnull), ("top", .jnull)])
      [.registerCall 7 (.jarr []) (.jarr []), .saveCall 7] rfl,
   claim8_save_once_after_success.2.1 _ 7 _ (.jarr []) (.jarr []) "rfail" rfl rfl rfl,
   claim8_save_once_after_success.2.2 _ 7 _ (.jarr []) (.jarr []) "boom" rfl rfl rfl rfl⟩

/-! ## Claim C10 -/

/-- C10: a parsed request carrying a valid config whose command is neither
`register` nor `__shutdown__` (an absent command reads as `None`) gets the
`Unsupported command` response — and the successful manager resolution has
already replaced the session cache before the command was rejected. -/
theorem claim10_unsupported_command :
    ∀ (parse : String → Except String JsonVal) (cb : Collab) (st : Session)
      (line : String) (pl cfg : List (String × JsonVal)) (m : Manager) (h : String),
      parse line = .ok (.jobj pl) →
      isCmd (pyGet pl "command") "__shutdown__" = false →
      isCmd (pyGet pl "command") "register" = false →
      pyGet pl "config" = .jobj cfg →
      (ensure_manager cb st.manager st.cachedHash cfg).1 = .ok (m, h) →
      processLine parse cb st line =
        (⟨some m, some h⟩,
         (ensure_manager cb st.manager st.cachedHash cfg).2 ++
           [.emit (dumps (.jobj [("error",
             .jstr ("Unsupported command: " ++ pyStr (pyGet pl "command")))]))],
         .next) := by
  intro parse cb st line pl cfg m h hp hsd hreg hc he
  rw [processLine_resolved parse cb st line pl cfg m h hp hsd hc he]
  have hd : dispatchCmd cb m pl (pyGet pl "command") =
      (.jobj [("error", .jstr ("Unsupported command: " ++ pyStr (pyGet pl "command")))],
       []) := by
    unfold dispatchCmd
    rw [hreg]
    simp
  rw [hd]
  simp

/-- Witness for C10: a config-only request (no command at all) on a fresh
session resolves a manager (handle 7), caches it, and is answered with
`Unsupported command: None`. -/
theorem claim10_witness :
    processLine parseTiny cbStub ⟨none, none⟩ "c" =
      (⟨some 7, some (fingerprint cfg14)⟩,
       (ensure_manager cbStub none none cfg14).2 ++
         [.emit (dumps (.jobj [("error",
           .jstr ("Unsupported command: " ++ pyStr .jnull))]))],
       .next) :=
  claim10_unsupported_command parseTiny cbStub ⟨none, none⟩ "c"
    [("config", .jobj cfg14)] cfg14 7 (fingerprint cfg14) rfl rfl rfl rfl rfl

/-! ## Claim C9 -/

/-- C9 (counterexample to "shutdown and end of input are the only ways the
loop ends"): a line parsing to JSON `null` makes `payload.get('command')`
raise an uncaught `AttributeError`: the loop ends by crashing, with input
still unread and no shutdown acknowledged. -/
theorem claim9_counterexample :
    runMain parseProbe [("null", cbStub), ("x", cbStub)] ⟨none, none⟩ =
      ([], .crashed "'NoneType' object has no attribute 'get'") := rfl

/-- C9 (amended): a `__shutdown__` request is acknowledged with
`{"ok": true, "command": "__shutdown__"}` and terminates the loop before
any later line is read; the shutdown check precedes the config check, so
no config is needed; a step halts the loop only for a shutdown command;
and on inputs whose lines all parse to objects or fail to parse, shutdown
and end of input are the only ways the loop ends. -/
theorem claim9_shutdown_termination :
    (∀ (parse : String → Except String JsonVal) (raw : String) (cb : Collab)
       (rest : List (String × Collab)) (st : Session) (p : List (String × JsonVal)),
      parse (pyStrip raw) = .ok (.jobj p) →
      pyGet p "command" = .jstr "__shutdown__" →
      pyStrip raw ≠ "" →
      runMain parse ((raw, cb) :: rest) st =
        ([.emit (dumps (.jobj [("ok", .jbool true), ("command", .jstr "__shutdown__")]))],
         .shutdown)) ∧
    (∀ (parse : String → Except String JsonVal) (cb : Collab) (st : Session)
       (line : String),
      (processLine parse cb st line).2.2 = .halt →
      ∃ pl, parse line = .ok (.jobj pl) ∧
        isCmd (pyGet pl "command") "__shutdown__" = true) ∧
    (∀ (parse : String → Except String JsonVal) (lines : List (String × Collab))
       (st : Session),
      (∀ pr ∈ lines, ObjOrErr (parse (pyStrip pr.1))) →
      (runMain parse lines st).2 = .eof ∨ (runMain parse lines st).2 = .shutdown) := by
  refine ⟨?_, ?_, ?_⟩
  · intro parse raw cb rest st p hp hcmd hne
    have hsd : isCmd (pyGet p "command") "__shutdown__" = true := by
      rw [hcmd]; rfl
    have hpl := processLine_shutdown parse cb st (pyStrip raw) p hp hsd
    rw [runMain_cons_halt parse raw cb rest st hne (by rw [hpl])]
    rw [hpl]
  · intro parse cb st line h
    cases hp : parse line with
    | error e => rw [processLine_parse_error parse cb st line e hp] at h; cases h
    | ok v =>
      cases v with
      | jobj pl =>
        by_cases hsd : isCmd (pyGet pl "command") "__shutdown__" = true
        · exact ⟨pl, rfl, hsd⟩
        · replace hsd : isCmd (pyGet pl "command") "__shutdown__" = false := by
            simpa using hsd
          cases hv : pyGet pl "config" with
          | jobj cfg =>
            cases he : (ensure_manager cb st.manager st.cachedHash cfg).1 with
            | error e =>
              rw [processLine_init_failure parse cb st line pl cfg e hp hsd hv he] at h
              cases h
            | ok mh =>
              obtain ⟨m, hh⟩ := mh
              rw [processLine_resolved parse cb st line pl cfg m hh hp hsd hv he] at h
              cases h
          | jnull =>
            rw [processLine_missing_config parse cb st line pl hp hsd (by rw [hv]; rfl)] at h
            cases h
          | jbool b =>
            rw [processLine_missing_config parse cb st line pl hp hsd (by rw [hv]; rfl)] at h
            cases h
          | jnum n =>
            rw [processLine_missing_config parse cb st line pl hp hsd (by rw [hv]; rfl)] at h
            cases h
          | jstr s =>
            rw [processLine_missing_config parse cb st line pl hp hsd (by rw [hv]; rfl)] at h
            cases h
          | jarr l =>
            rw [processLine_missing_config parse cb st line pl hp hsd (by rw [hv]; rfl)] at h
            cases h
      | jnull => rw [processLine_nonobject parse cb st line _ hp rfl] at h; cases h
      | jbool b => rw [processLine_nonobject parse cb st line _ hp rfl] at h; cases h
      | jnum n => rw [processLine_nonobject parse cb st line _ hp rfl] at h; cases h
      | jstr s => rw [processLine_nonobject parse cb st line _ hp rfl] at h; cases h
      | jarr l => rw [processLine_nonobject parse cb st line _ hp rfl] at h; cases h
  · intro parse lines
    induction lines with
    | nil => intro st _; exact .inl rfl
    | cons pr rest ih =>
      intro st hobj
      obtain ⟨raw, cb⟩ := pr
      by_cases hb : pyStrip raw = ""
      · rw [runMain_cons_blank parse raw cb rest st hb]
        exact ih st fun q hq => hobj q (List.mem_cons_of_mem _ hq)
      · have hsh := processLine_shape parse cb st (pyStrip raw)
          (hobj (raw, cb) (List.mem_cons_self _ _))
        rcases hsh.1 with hn | hh
        · rw [runMain_cons_next parse raw cb rest st hb hn]
          exact ih _ fun q hq => hobj q (List.mem_cons_of_mem _ hq)
        · rw [runMain_cons_halt parse raw cb rest st hb hh]
          exact .inr rfl

/-- Witness for C9: a concrete shutdown request followed by another line
acknowledges and terminates without touching the later line. -/
theorem claim9_witness :
    runMain parseTiny [("s", cbStub), ("a", cbStub)] ⟨none, none⟩ =
      ([.emit (dumps (.jobj [("ok", .jbool true), ("command", .jstr "__shutdown__")]))],
       .shutdown) :=
  claim9_shutdown_termination.1 parseTiny "s" cbStub [("a", cbStub)] ⟨none, none⟩
    [("command", .jstr "__shutdown__")] rfl rfl (by decide)

/-! ## Claim C1 -/

/-- C1 (counterexample): a non-empty line parsing to the JSON number `123`
produces no response at all — `payload.get('command')` raises an uncaught
`AttributeError` and the loop (and process) aborts. -/
theorem claim1_counterexample :
    (outputsOf (runMain parseProbe [("123", cbStub)] ⟨none, none⟩).1).length = 0 ∧
    (runMain parseProbe [("123", cbStub)] ⟨none, none⟩).2 =
      .crashed "'int' object has no attribute 'get'" :=
  ⟨rfl, rfl⟩

/-- C1 (amended): lines that are blank after stripping produce no response
and do not touch the session; provided every line parses to a JSON object
or fails to parse, each processed request emits exactly one response line
(in request order, since responses are appended per request), no exception
escapes the per-request handling (the loop never crashes), and the number
of responses equals the number of non-blank lines read before the loop
terminated — all of them unless a shutdown intervened. -/
theorem claim1_loop_responses :
    (∀ (parse : String → Except String JsonVal) (raw : String) (cb : Collab)
       (rest : List (String × Collab)) (st : Session),
      pyStrip raw = "" →
      runMain parse ((raw, cb) :: rest) st = runMain parse rest st) ∧
    (∀ (parse : String → Except String JsonVal) (cb : Collab) (st : Session)
       (line : String),
      ObjOrErr (parse line) →
      countEmits (processLine parse cb st line).2.1 = 1 ∧
        ((processLine parse cb st line).2.2 = .next ∨
          (processLine parse cb st line).2.2 = .halt)) ∧
    (∀ (parse : String → Except String JsonVal) (lines : List (String × Collab))
       (st : Session),
      (∀ pr ∈ lines, ObjOrErr (parse (pyStrip pr.1))) →
      ∃ n ≤ lines.length,
        countEmits (runMain parse lines st).1 =
          ((lines.take n).filter fun pr => !(pyStrip pr.1 == "")).length ∧
        ((runMain parse lines st).2 = .eof → n = lines.length) ∧
        ((runMain parse lines st).2 = .eof ∨ (runMain parse lines st).2 = .shutdown)) := by
  refine ⟨?_, ?_, ?_⟩
  · intro parse raw cb rest st hb
    exact runMain_cons_blank parse raw cb rest st hb
  · intro parse cb st line hobj
    have h := processLine_shape parse cb st line hobj
    exact ⟨h.2, h.1⟩
  · intro parse lines
    induction lines with
    | nil =>
      intro st _
      exact ⟨0, Nat.le_refl 0, rfl, fun _ => rfl, .inl rfl⟩
    | cons pr rest ih =>
      intro st hobj
      obtain ⟨raw, cb⟩ := pr
      by_cases hb : pyStrip raw = ""
      · rw [runMain_cons_blank parse raw cb rest st hb]
        obtain ⟨n, hn, hcount, heof, hout⟩ :=
          ih st fun q hq => hobj q (List.mem_cons_of_mem _ hq)
        refine ⟨n + 1, Nat.succ_le_succ hn, ?_, fun he => by rw [heof he]; rfl, hout⟩
        have hfb : (!(pyStrip raw == "")) = false := by simp [hb]
        simp only [List.take_succ_cons, List.filter_cons, hfb]
        exact hcount
      · have hsh := processLine_shape parse cb st (pyStrip raw)
          (hobj (raw, cb) (List.mem_cons_self _ _))
        have hfb : (!(pyStrip raw == "")) = true := by simp [hb]
        rcases hsh.1 with hn | hh
        · rw [runMain_cons_next parse raw cb rest st hb hn]
          obtain ⟨n, hnle, hcount, heof, hout⟩ :=
            ih (processLine parse cb st (pyStrip raw)).1
              fun q hq => hobj q (List.mem_cons_of_mem _ hq)
          refine ⟨n + 1, Nat.succ_le_succ hnle, ?_, fun he => by rw [heof he]; rfl, hout⟩
          simp only [List.take_succ_cons, List.filter_cons, hfb, countEmits_append]
          rw [hsh.2, hcount]
          simp [Nat.add_comm]
        · rw [runMain_cons_halt parse raw cb rest st hb hh]
          refine ⟨1, Nat.succ_le_succ (Nat.zero_le _), ?_, ?_, ?_⟩
          · simp only [List.take_succ_cons, List.take_zero, List.filter_cons, hfb]
            rw [hsh.2]
            simp
          · intro he
            exact nomatch he
          · exact .inr rfl

/-- Witness for C1: a concrete blank line is skipped, and a concrete
handled request emits exactly one response. -/
theorem claim1_witness :
    runMain parseTiny [("  ", cbStub)] ⟨none, none⟩ =
      runMain parseTiny [] ⟨none, none⟩ ∧
    countEmits (processLine parseTiny cbStub ⟨none, none⟩ "a").2.1 = 1 :=
  ⟨claim1_loop_responses.1 parseTiny "  " cbStub [] ⟨none, none⟩ rfl,
   (claim1_loop_responses.2.1 parseTiny cbStub ⟨none, none⟩ "a" (by decide)).1⟩

/-! ## Claim C4: injectivity of the serializer

`json.dumps` output is unambiguous: no serialized value is a prefix of
another serialized value's output followed by a separator or closer.  The
proofs below establish this by showing every encoding level is a prefix
code in its context. -/

theorem char_eq_of_toNat {a b : Char} (h : a.toNat = b.toNat) : a = b :=
  Char.eq_of_val_eq (UInt32.toNat.inj h)

theorem char_toNat_lt (c : Char) : c.toNat < 0x110000 := by
  rcases c.valid with h | h
  · exact Nat.lt_trans h (by norm_num)
  · exact h.2

theorem char_not_surrogate (c : Char) : c.toNat < 0xD800 ∨ 0xDFFF < c.toNat := by
  rcases c.valid with h | h
  · exact .inl h
  · exact .inr h.1

theorem hexDig_inj_lt : ∀ a < 16, ∀ b < 16, hexDig a = hexDig b → a = b := by decide

theorem hex4_inj {a b : Nat} (h : hex4 a = hex4 b) : a % 65536 = b % 65536 := by
  unfold hex4 at h
  simp only [List.cons.injEq, and_true] at h
  obtain ⟨h3, h2, h1, h0⟩ := h
  have e3 := hexDig_inj_lt _ (Nat.mod_lt _ (by norm_num)) _ (Nat.mod_lt _ (by norm_num)) h3
  have e2 := hexDig_inj_lt _ (Nat.mod_lt _ (by norm_num)) _ (Nat.mod_lt _ (by norm_num)) h2
  have e1 := hexDig_inj_lt _ (Nat.mod_lt _ (by norm_num)) _ (Nat.mod_lt _ (by norm_num)) h1
  have e0 := hexDig_inj_lt _ (Nat.mod_lt _ (by norm_num)) _ (Nat.mod_lt _ (by norm_num)) h0
  omega

theorem hex4_inj_of_lt {a b : Nat} (ha : a < 65536) (hb : b < 65536)
    (h : hex4 a = hex4 b) : a = b := by
  have := hex4_inj h
  rwa [Nat.mod_eq_of_lt ha, Nat.mod_eq_of_lt hb] at this

/-- The serialization of any JSON value begins with a recognizable value
starter, never with a separator, closer, space or colon. -/
theorem dumps_head (v : JsonVal) :
    ∃ c t, dumpsChars v = c :: t ∧ valueStart c = true := by
  cases v with
  | jnull => exact ⟨'n', _, rfl, by decide⟩
  | jbool b =>
    cases b
    · exact ⟨'f', _, rfl, by decide⟩
    · exact ⟨'t', _, rfl, by decide⟩
  | jnum s =>
    obtain ⟨hne, hall⟩ := s.2
    cases hs : s.val with
    | nil => exact absurd hs hne
    | cons c t =>
      refine ⟨c, t, by simp [dumpsChars, hs], ?_⟩
      have : isNumChar c = true := by
        have := List.all_eq_true.mp hall c (by rw [hs]; exact List.mem_cons_self _ _)
        exact this
      simp [valueStart, this]
  | jstr s => exact ⟨'"', _, rfl, by decide⟩
  | jarr l => exact ⟨'[', _, rfl, by decide⟩
  | jobj l => exact ⟨'{', _, rfl, by decide⟩

theorem stop_not_num {c : Char} (hs : stopChar c = true) (hn : isNumChar c = true) :
    False := by
  have h1 : c = ',' ∨ c = ']' ∨ c = '}' := by
    simpa [stopChar, or_assoc] using hs
  rcases h1 with h | h | h <;> subst h <;> exact absurd hn (by decide)

/-- Two all-number-character runs followed by stop characters (or nothing)
split identically. -/
theorem numRun_split : ∀ (l₁ l₂ r₁ r₂ : List Char),
    (∀ c ∈ l₁, isNumChar c = true) → (∀ c ∈ l₂, isNumChar c = true) →
    GoodRest r₁ → GoodRest r₂ →
    l₁ ++ r₁ = l₂ ++ r₂ → l₁ = l₂ ∧ r₁ = r₂ := by
  intro l₁
  induction l₁ with
  | nil =>
    intro l₂ r₁ r₂ _ hn₂ hg₁ _ h
    cases l₂ with
    | nil => exact ⟨rfl, h⟩
    | cons c t =>
      exfalso
      simp only [List.nil_append, List.cons_append] at h
      rcases hg₁ with hnil | ⟨c', t', hr, hst⟩
      · rw [hnil] at h; cases h
      · rw [hr] at h
        injection h with hc _
        have hnum := hn₂ c (List.mem_cons_self _ _)
        rw [← hc] at hnum
        exact stop_not_num hst hnum
  | cons a as ih =>
    intro l₂ r₁ r₂ hn₁ hn₂ hg₁ hg₂ h
    cases l₂ with
    | nil =>
      exfalso
      simp only [List.cons_append, List.nil_append] at h
      rcases hg₂ with hnil | ⟨c', t', hr, hst⟩
      · rw [hnil] at h; cases h
      · rw [hr] at h
        injection h with hc _
        have hnum := hn₁ a (List.mem_cons_self _ _)
        rw [hc] at hnum
        exact stop_not_num hst hnum
    | cons b bs =>
      simp only [List.cons_append] at h
      injection h with hab htail
      obtain ⟨he, hr⟩ := ih bs r₁ r₂ (fun c hc => hn₁ c (List.mem_cons_of_mem _ hc))
        (fun c hc => hn₂ c (List.mem_cons_of_mem _ hc)) hg₁ hg₂ htail
      exact ⟨by rw [hab, he], hr⟩

theorem escPair_inj {c d e : Char} (hc : escPair c e) (hd : escPair d e) : c = d := by
  unfold escPair at hc hd
  rcases hc with ⟨h1, rfl⟩ | ⟨h1, rfl⟩ | ⟨h1, rfl⟩ | ⟨h1, rfl⟩ | ⟨h1, rfl⟩ |
    ⟨h1, rfl⟩ | ⟨h1, rfl⟩ <;>
  rcases hd with ⟨h2, he⟩ | ⟨h2, he⟩ | ⟨h2, he⟩ | ⟨h2, he⟩ | ⟨h2, he⟩ |
    ⟨h2, he⟩ | ⟨h2, he⟩ <;>
  first
    | (exact h1.trans h2.symm)
    | (exact absurd he (by decide))
    | (exact char_eq_of_toNat (by omega))
    | (subst h1; exact absurd h2 (by decide))
    | (subst h2; exact absurd h1 (by decide))

theorem escPair_ne_u {c e : Char} (hc : escPair c e) : e ≠ 'u' := by
  unfold escPair at hc
  rcases hc with ⟨_, rfl⟩ | ⟨_, rfl⟩ | ⟨_, rfl⟩ | ⟨_, rfl⟩ | ⟨_, rfl⟩ |
    ⟨_, rfl⟩ | ⟨_, rfl⟩ <;> decide

theorem escPair_not_lit {c d e : Char} (hc : escPair c e) (h1 : ¬d = '"')
    (h2 : ¬d = '\\') (h : d = '\\') : False := h2 h

/-- The four shapes `encodeCharJson` can take. -/
theorem encChar_cases (c : Char) :
    (∃ e, escPair c e ∧ encodeCharJson c = ['\\', e]) ∨
    (¬c = '"' ∧ ¬c = '\\' ∧ encodeCharJson c = [c]) ∨
    (c.toNat < 0x10000 ∧ encodeCharJson c = '\\' :: 'u' :: hex4 c.toNat) ∨
    (0x10000 ≤ c.toNat ∧
      encodeCharJson c = '\\' :: 'u' ::
        (hex4 (0xD800 + (c.toNat - 0x10000) / 0x400) ++
          '\\' :: 'u' :: hex4 (0xDC00 + (c.toNat - 0x10000) % 0x400))) := by
  by_cases h1 : c = '"'
  · exact .inl ⟨'"', .inl ⟨h1, rfl⟩, by simp [encodeCharJson, h1]⟩
  by_cases h2 : c = '\\'
  · exact .inl ⟨'\\', .inr (.inl ⟨h2, rfl⟩), by simp [encodeCharJson, h1, h2]⟩
  by_cases h3 : 0x20 ≤ c.toNat ∧ c.toNat ≤ 0x7E
  · exact .inr (.inl ⟨h1, h2, by simp [encodeCharJson, h1, h2, h3]⟩)
  by_cases h4 : c.toNat = 8
  · exact .inl ⟨'b', .inr (.inr (.inl ⟨h4, rfl⟩)),
      by simp [encodeCharJson, h1, h2, h3, h4]⟩
  by_cases h5 : c.toNat = 9
  · exact .inl ⟨'t', .inr (.inr (.inr (.inl ⟨h5, rfl⟩))),
      by simp [encodeCharJson, h1, h2, h3, h4, h5]⟩
  by_cases h6 : c.toNat = 10
  · exact .inl ⟨'n', .inr (.inr (.inr (.inr (.inl ⟨h6, rfl⟩)))),
      by simp [encodeCharJson, h1, h2, h3, h4, h5, h6]⟩
  by_cases h7 : c.toNat = 12
  · exact .inl ⟨'f', .inr (.inr (.inr (.inr (.inr (.inl ⟨h7, rfl⟩))))),
      by simp [encodeCharJson, h1, h2, h3, h4, h5, h6, h7]⟩
  by_cases h8 : c.toNat = 13
  · exact .inl ⟨'r', .inr (.inr (.inr (.inr (.inr (.inr ⟨h8, rfl⟩))))),
      by simp [encodeCharJson, h1, h2, h3, h4, h5, h6, h7, h8]⟩
  by_cases h9 : c.toNat < 0x10000
  · exact .inr (.inr (.inl ⟨h9,
      by simp [encodeCharJson, h1, h2, h3, h4, h5, h6, h7, h8, h9]⟩))
  · exact .inr (.inr (.inr ⟨Nat.le_of_not_lt h9,
      by simp [encodeCharJson, h1, h2, h3, h4, h5, h6, h7, h8, h9]⟩))

theorem hex4_length (n : Nat) : (hex4 n).length = 4 := rfl

theorem high_surrogate_lt (n : Nat) (hn : n < 0x110000) (h : 0x10000 ≤ n) :
    0xD800 + (n - 0x10000) / 0x400 < 0x10000 := by omega

/-- The per-character escape encoding is a prefix code: an encoded
character followed by arbitrary output determines the character and the
remaining output. -/
theorem encChar_split (c d : Char) (x y : List Char)
    (h : encodeCharJson c ++ x = encodeCharJson d ++ y) : c = d ∧ x = y := by
  rcases encChar_cases c with ⟨e₁, hp₁, he₁⟩ | ⟨hq₁, hb₁, he₁⟩ | ⟨hlt₁, he₁⟩ | ⟨hge₁, he₁⟩ <;>
    rcases encChar_cases d with ⟨e₂, hp₂, he₂⟩ | ⟨hq₂, hb₂, he₂⟩ | ⟨hlt₂, he₂⟩ | ⟨hge₂, he₂⟩ <;>
    rw [he₁, he₂] at h
  -- esc / esc
  · simp only [List.cons_append, List.nil_append, List.cons.injEq] at h
    obtain ⟨-, hee, hxy⟩ := h
    subst hee
    exact ⟨escPair_inj hp₁ hp₂, hxy⟩
  -- esc / lit
  · simp only [List.cons_append, List.nil_append, List.cons.injEq] at h
    exact absurd h.1.symm hb₂
  -- esc / u6
  · simp only [List.cons_append, List.cons.injEq] at h
    exact absurd h.2.1 (escPair_ne_u hp₁)
  -- esc / u12
  · simp only [List.cons_append, List.cons.injEq] at h
    exact absurd h.2.1 (escPair_ne_u hp₁)
  -- lit / esc
  · simp only [List.cons_append, List.nil_append, List.cons.injEq] at h
    exact absurd h.1 hb₁
  -- lit / lit
  · simp only [List.cons_append, List.nil_append, List.cons.injEq] at h
    exact ⟨h.1, h.2⟩
  -- lit / u6
  · simp only [List.cons_append, List.cons.injEq] at h
    exact absurd h.1 hb₁
  -- lit / u12
  · simp only [List.cons_append, List.cons.injEq] at h
    exact absurd h.1 hb₁
  -- u6 / esc
  · simp only [List.cons_append, List.cons.injEq] at h
    exact absurd h.2.1.symm (escPair_ne_u hp₂)
  -- u6 / lit
  · simp only [List.cons_append, List.cons.injEq, List.nil_append] at h
    exact absurd h.1.symm hb₂
  -- u6 / u6
  · simp only [List.cons_append, List.cons.injEq] at h
    obtain ⟨-, -, hrest⟩ := h
    obtain ⟨hhex, hxy⟩ := List.append_inj hrest (by rw [hex4_length, hex4_length])
    exact ⟨char_eq_of_toNat (hex4_inj_of_lt hlt₁ hlt₂ hhex), hxy⟩
  -- u6 / u12
  · simp only [List.cons_append, List.cons.injEq] at h
    obtain ⟨-, -, hrest⟩ := h
    rw [List.append_assoc] at hrest
    obtain ⟨hhex, -⟩ := List.append_inj hrest (by rw [hex4_length, hex4_length])
    have := hex4_inj_of_lt hlt₁
      (high_surrogate_lt _ (char_toNat_lt d) hge₂) hhex
    have hdlt := char_toNat_lt d
    rcases char_not_surrogate c with hs | hs <;> omega
  -- u12 / esc
  · simp only [List.cons_append, List.cons.injEq] at h
    exact absurd h.2.1.symm (escPair_ne_u hp₂)
  -- u12 / lit
  · simp only [List.cons_append, List.cons.injEq, List.nil_append] at h
    exact absurd h.1.symm hb₂
  -- u12 / u6
  · simp only [List.cons_append, List.cons.injEq] at h
    obtain ⟨-, -, hrest⟩ := h
    rw [List.append_assoc] at hrest
    obtain ⟨hhex, -⟩ := List.append_inj hrest.symm (by rw [hex4_length, hex4_length])
    have := hex4_inj_of_lt hlt₂ (high_surrogate_lt _ (char_toNat_lt c) hge₁) hhex
    have hclt := char_toNat_lt c
    rcases char_not_surrogate d with hs | hs <;> omega
  -- u12 / u12
  · simp only [List.cons_append, List.cons.injEq] at h
    obtain ⟨-, -, hrest⟩ := h
    rw [List.append_assoc, List.append_assoc] at hrest
    obtain ⟨hhigh, hrest₂⟩ := List.append_inj hrest (by rw [hex4_length, hex4_length])
    have hH := hex4_inj_of_lt (high_surrogate_lt _ (char_toNat_lt c) hge₁)
      (high_surrogate_lt _ (char_toNat_lt d) hge₂) hhigh
    simp only [List.cons_append, List.cons.injEq] at hrest₂
    obtain ⟨-, -, hrest₃⟩ := hrest₂
    obtain ⟨hlow, hxy⟩ := List.append_inj hrest₃ (by rw [hex4_length, hex4_length])
    have hL := hex4_inj_of_lt (by omega) (by omega) hlow
    exact ⟨char_eq_of_toNat (by omega), hxy⟩

theorem encChar_head (c : Char) :
    ∃ e t, encodeCharJson c = e :: t ∧ ¬e = '"' := by
  rcases encChar_cases c with ⟨e, -, he⟩ | ⟨hq, -, he⟩ | ⟨-, he⟩ | ⟨-, he⟩
  · exact ⟨'\\', _, he, by decide⟩
  · exact ⟨c, _, he, hq⟩
  · exact ⟨'\\', _, he, by decide⟩
  · exact ⟨'\\', _, he, by decide⟩

/-- The string-body encoding terminated by an unescaped quote is
unambiguous. -/
theorem encBody_split : ∀ (a b r₁ r₂ : List Char),
    encBody a ++ '"' :: r₁ = encBody b ++ '"' :: r₂ → a = b ∧ r₁ = r₂ := by
  intro a
  induction a with
  | nil =>
    intro b r₁ r₂ h
    cases b with
    | nil =>
      simp only [encBody, List.nil_append] at h
      exact ⟨rfl, by injection h⟩
    | cons d ds =>
      exfalso
      obtain ⟨e, t, he, hne⟩ := encChar_head d
      simp only [encBody, List.nil_append, he, List.cons_append, List.append_assoc,
        List.cons.injEq] at h
      exact hne h.1.symm
  | cons c cs ih =>
    intro b r₁ r₂ h
    cases b with
    | nil =>
      exfalso
      obtain ⟨e, t, he, hne⟩ := encChar_head c
      simp only [encBody, List.nil_append, he, List.cons_append, List.append_assoc,
        List.cons.injEq] at h
      exact hne h.1
    | cons d ds =>
      simp only [encBody, List.append_assoc] at h
      obtain ⟨hcd, htail⟩ := encChar_split c d _ _ h
      obtain ⟨hcs, hr⟩ := ih ds r₁ r₂ htail
      exact ⟨by rw [hcd, hcs], hr⟩

/-- A serialized string is self-delimiting. -/
theorem encStr_split (a b r₁ r₂ : List Char)
    (h : encStr a ++ r₁ = encStr b ++ r₂) : a = b ∧ r₁ = r₂ := by
  simp only [encStr, List.cons_append, List.append_assoc, List.cons.injEq,
    List.singleton_append, true_and] at h
  exact encBody_split a b r₁ r₂ h

theorem valueStart_not_stop {c : Char} (hv : valueStart c = true)
    (hs : stopChar c = true) : False := by
  have h1 : c = 'n' ∨ c = 't' ∨ c = 'f' ∨ c = '"' ∨ c = '[' ∨ c = '{' ∨
      isNumChar c = true := by
    simpa [valueStart, or_assoc] using hv
  rcases h1 with h | h | h | h | h | h | h
  · subst h; exact absurd hs (by decide)
  · subst h; exact absurd hs (by decide)
  · subst h; exact absurd hs (by decide)
  · subst h; exact absurd hs (by decide)
  · subst h; exact absurd hs (by decide)
  · subst h; exact absurd hs (by decide)
  · exact stop_not_num hs h

theorem dumps_headCh (v : JsonVal) : ∃ t, dumpsChars v = headCh v :: t := by
  obtain ⟨c, t, he, -⟩ := dumps_head v
  refine ⟨t, ?_⟩
  rw [he]
  cases v with
  | jnum s =>
    obtain ⟨hne, -⟩ := s.2
    cases hs : s.val with
    | nil => exact absurd hs hne
    | cons a as =>
      have : dumpsChars (.jnum s) = a :: as := by simp [dumpsChars, hs]
      rw [this] at he
      injection he with h1 _
      simp [headCh, hs, h1]
  | jnull => cases he; rfl
  | jbool b => cases b <;> cases he <;> rfl
  | jstr s => cases he; rfl
  | jarr l => cases he; rfl
  | jobj l => cases he; rfl

theorem head_clash {v₁ v₂ : JsonVal} {r₁ r₂ : List Char}
    (h : dumpsChars v₁ ++ r₁ = dumpsChars v₂ ++ r₂) : headCh v₁ = headCh v₂ := by
  obtain ⟨t₁, h₁⟩ := dumps_headCh v₁
  obtain ⟨t₂, h₂⟩ := dumps_headCh v₂
  rw [h₁, h₂] at h
  injection h

theorem num_head_isNum (s : {l : List Char // NumOk l}) :
    isNumChar (headCh (.jnum s)) = true := by
  obtain ⟨hne, hall⟩ := s.2
  cases hs : s.val with
  | nil => exact absurd hs hne
  | cons a as =>
    have := List.all_eq_true.mp hall a (by rw [hs]; exact List.mem_cons_self _ _)
    simp [headCh, hs, this]

theorem headCh_valueStart (v : JsonVal) : valueStart (headCh v) = true := by
  cases v with
  | jnum s => simpa [valueStart] using Or.inr (num_head_isNum s)
  | jbool b => cases b <;> decide
  | jnull => decide
  | jstr s => rfl
  | jarr l => rfl
  | jobj l => rfl

/-- Comma-joined array items terminated by `]` split unambiguously, given
that the items themselves do. -/
theorem dumpsArr_split : ∀ (l₁ l₂ : List JsonVal) (r₁ r₂ : List Char),
    (∀ v ∈ l₁, ∀ v₂ r₁' r₂', GoodRest r₁' → GoodRest r₂' →
      dumpsChars v ++ r₁' = dumpsChars v₂ ++ r₂' → v = v₂ ∧ r₁' = r₂') →
    dumpsArr l₁ ++ ']' :: r₁ = dumpsArr l₂ ++ ']' :: r₂ →
    l₁ = l₂ ∧ r₁ = r₂ := by
  intro l₁
  induction l₁ with
  | nil =>
    intro l₂ r₁ r₂ _ h
    cases l₂ with
    | nil =>
      simp only [dumpsArr, List.nil_append] at h
      exact ⟨rfl, by injection h⟩
    | cons w ws =>
      exfalso
      obtain ⟨t, ht⟩ := dumps_headCh w
      have hfront : ∃ u, dumpsArr (w :: ws) = headCh w :: u := by
        cases ws with
        | nil => exact ⟨t, by simp [dumpsArr, ht]⟩
        | cons w' ws' =>
          exact ⟨t ++ ',' :: ' ' :: dumpsArr (w' :: ws'), by simp [dumpsArr, ht]⟩
      obtain ⟨u, hu⟩ := hfront
      rw [hu] at h
      simp only [dumpsArr, List.nil_append, List.cons_append, List.cons.injEq] at h
      have hvv := headCh_valueStart w
      rw [← h.1] at hvv
      exact valueStart_not_stop hvv (by decide)
  | cons v vs ih =>
    intro l₂ r₁ r₂ hel h
    cases l₂ with
    | nil =>
      exfalso
      obtain ⟨t, ht⟩ := dumps_headCh v
      have hfront : ∃ u, dumpsArr (v :: vs) = headCh v :: u := by
        cases vs with
        | nil => exact ⟨t, by simp [dumpsArr, ht]⟩
        | cons v' vs' =>
          exact ⟨t ++ ',' :: ' ' :: dumpsArr (v' :: vs'), by simp [dumpsArr, ht]⟩
      obtain ⟨u, hu⟩ := hfront
      rw [hu] at h
      simp only [dumpsArr, List.nil_append, List.cons_append, List.cons.injEq] at h
      have hvv := headCh_valueStart v
      rw [h.1] at hvv
      exact valueStart_not_stop hvv (by decide)
    | cons w ws =>
      have hv := hel v (List.mem_cons_self _ _)
      cases vs with
      | nil =>
        cases ws with
        | nil =>
          simp only [dumpsArr, List.append_assoc] at h
          obtain ⟨hvw, htail⟩ := hv w (']' :: r₁) (']' :: r₂)
            (.inr ⟨']', r₁, rfl, by decide⟩) (.inr ⟨']', r₂, rfl, by decide⟩) h
          injection htail with _ hr
          exact ⟨by rw [hvw], hr⟩
        | cons w' ws' =>
          exfalso
          simp only [dumpsArr, List.append_assoc, List.cons_append] at h
          obtain ⟨-, htail⟩ := hv w (']' :: r₁) (',' :: ' ' :: (dumpsArr (w' :: ws') ++ ']' :: r₂))
            (.inr ⟨']', r₁, rfl, by decide⟩) (.inr ⟨',', _, rfl, by decide⟩) h
          injection htail with h1 _
          cases h1
      | cons v' vs' =>
        cases ws with
        | nil =>
          exfalso
          simp only [dumpsArr, List.append_assoc, List.cons_append] at h
          obtain ⟨-, htail⟩ := hv w (',' :: ' ' :: (dumpsArr (v' :: vs') ++ ']' :: r₁)) (']' :: r₂)
            (.inr ⟨',', _, rfl, by decide⟩) (.inr ⟨']', r₂, rfl, by decide⟩) h
          injection htail with h1 _
          cases h1
        | cons w' ws' =>
          simp only [dumpsArr, List.append_assoc, List.cons_append] at h
          obtain ⟨hvw, htail⟩ := hv w
            (',' :: ' ' :: (dumpsArr (v' :: vs') ++ ']' :: r₁))
            (',' :: ' ' :: (dumpsArr (w' :: ws') ++ ']' :: r₂))
            (.inr ⟨',', _, rfl, by decide⟩) (.inr ⟨',', _, rfl, by decide⟩) h
          injection htail with _ htail
          injection htail with _ htail
          obtain ⟨hls, hr⟩ := ih (w' :: ws') r₁ r₂
            (fun u hu => hel u (List.mem_cons_of_mem _ hu)) htail
          exact ⟨by rw [hvw, hls], hr⟩

theorem string_ext {a b : String} (h : a.data = b.data) : a = b := by
  cases a
  cases b
  exact congrArg String.mk h

/-- `"key": value` items joined by `", "` and terminated by `}` split
unambiguously, given that the values do. -/
theorem dumpsObj_split : ∀ (l₁ l₂ : List (String × JsonVal)) (r₁ r₂ : List Char),
    (∀ p ∈ l₁, ∀ v₂ r₁' r₂', GoodRest r₁' → GoodRest r₂' →
      dumpsChars p.2 ++ r₁' = dumpsChars v₂ ++ r₂' → p.2 = v₂ ∧ r₁' = r₂') →
    dumpsObj l₁ ++ '}' :: r₁ = dumpsObj l₂ ++ '}' :: r₂ →
    l₁ = l₂ ∧ r₁ = r₂ := by
  intro l₁
  induction l₁ with
  | nil =>
    intro l₂ r₁ r₂ _ h
    cases l₂ with
    | nil =>
      simp only [dumpsObj, List.nil_append] at h
      exact ⟨rfl, by injection h⟩
    | cons q ws =>
      exfalso
      obtain ⟨k, w⟩ := q
      have hfront : ∃ u, dumpsObj ((k, w) :: ws) = '"' :: u := by
        cases ws with
        | nil =>
          exact ⟨encBody k.data ++ '"' :: ':' :: ' ' :: dumpsChars w,
            by simp [dumpsObj, encStr]⟩
        | cons q' ws' =>
          exact ⟨encBody k.data ++ '"' :: ':' :: ' ' ::
            (dumpsChars w ++ ',' :: ' ' :: dumpsObj (q' :: ws')),
            by simp [dumpsObj, encStr]⟩
      obtain ⟨u, hu⟩ := hfront
      rw [hu] at h
      simp only [dumpsObj, List.nil_append, List.cons_append, List.cons.injEq] at h
      cases h.1
  | cons p ps ih =>
    intro l₂ r₁ r₂ hel h
    obtain ⟨k₁, v₁⟩ := p
    cases l₂ with
    | nil =>
      exfalso
      have hfront : ∃ u, dumpsObj ((k₁, v₁) :: ps) = '"' :: u := by
        cases ps with
        | nil =>
          exact ⟨encBody k₁.data ++ '"' :: ':' :: ' ' :: dumpsChars v₁,
            by simp [dumpsObj, encStr]⟩
        | cons q' ps' =>
          exact ⟨encBody k₁.data ++ '"' :: ':' :: ' ' ::
            (dumpsChars v₁ ++ ',' :: ' ' :: dumpsObj (q' :: ps')),
            by simp [dumpsObj, encStr]⟩
      obtain ⟨u, hu⟩ := hfront
      rw [hu] at h
      simp only [dumpsObj, List.nil_append, List.cons_append, List.cons.injEq] at h
      cases h.1
    | cons q ws =>
      obtain ⟨k₂, w⟩ := q
      have hv := hel (k₁, v₁) (List.mem_cons_self _ _)
      cases ps with
      | nil =>
        cases ws with
        | nil =>
          simp only [dumpsObj, List.append_assoc, List.cons_append] at h
          obtain ⟨hk, htail⟩ := encStr_split k₁.data k₂.data _ _ h
          injection htail with _ htail
          injection htail with _ htail
          obtain ⟨hvw, hrest⟩ := hv w ('}' :: r₁) ('}' :: r₂)
            (.inr ⟨'}', r₁, rfl, by decide⟩) (.inr ⟨'}', r₂, rfl, by decide⟩) htail
          injection hrest with _ hr
          have hvw2 : v₁ = w := hvw
          exact ⟨by rw [string_ext hk, hvw2], hr⟩
        | cons q' ws' =>
          exfalso
          simp only [dumpsObj, List.append_assoc, List.cons_append] at h
          obtain ⟨-, htail⟩ := encStr_split k₁.data k₂.data _ _ h
          injection htail with _ htail
          injection htail with _ htail
          obtain ⟨-, hrest⟩ := hv w ('}' :: r₁)
            (',' :: ' ' :: (dumpsObj (q' :: ws') ++ '}' :: r₂))
            (.inr ⟨'}', r₁, rfl, by decide⟩) (.inr ⟨',', _, rfl, by decide⟩) htail
          injection hrest with h1 _
          cases h1
      | cons p' ps' =>
        cases ws with
        | nil =>
          exfalso
          simp only [dumpsObj, List.append_assoc, List.cons_append] at h
          obtain ⟨-, htail⟩ := encStr_split k₁.data k₂.data _ _ h
          injection htail with _ htail
          injection htail with _ htail
          obtain ⟨-, hrest⟩ := hv w
            (',' :: ' ' :: (dumpsObj (p' :: ps') ++ '}' :: r₁)) ('}' :: r₂)
            (.inr ⟨',', _, rfl, by decide⟩) (.inr ⟨'}', r₂, rfl, by decide⟩) htail
          injection hrest with h1 _
          cases h1
        | cons q' ws' =>
          simp only [dumpsObj, List.append_assoc, List.cons_append] at h
          obtain ⟨hk, htail⟩ := encStr_split k₁.data k₂.data _ _ h
          injection htail with _ htail
          injection htail with _ htail
          obtain ⟨hvw, hrest⟩ := hv w
            (',' :: ' ' :: (dumpsObj (p' :: ps') ++ '}' :: r₁))
            (',' :: ' ' :: (dumpsObj (q' :: ws') ++ '}' :: r₂))
            (.inr ⟨',', _, rfl, by decide⟩) (.inr ⟨',', _, rfl, by decide⟩) htail
          injection hrest with _ hrest
          injection hrest with _ hrest
          obtain ⟨hls, hr⟩ := ih (q' :: ws') r₁ r₂
            (fun u hu => hel u (List.mem_cons_of_mem _ hu)) hrest
          have hvw2 : v₁ = w := hvw
          exact ⟨by rw [string_ext hk, hvw2, hls], hr⟩

/-- `json.dumps` output followed by a separator, closer or nothing
determines the value and the rest: the serialization is a prefix code in
its context. -/
theorem dumps_split : ∀ (n : Nat) (v₁ v₂ : JsonVal) (r₁ r₂ : List Char),
    sizeOf v₁ ≤ n → GoodRest r₁ → GoodRest r₂ →
    dumpsChars v₁ ++ r₁ = dumpsChars v₂ ++ r₂ → v₁ = v₂ ∧ r₁ = r₂ := by
  intro n
  induction n using Nat.strong_induction_on with
  | _ n ih =>
  intro v₁ v₂ r₁ r₂ hsz hg₁ hg₂ h
  cases v₁ with
  | jnull =>
    cases v₂ with
    | jnull => exact ⟨rfl, by simpa [dumpsChars] using h⟩
    | jbool b => cases b <;> exact absurd (head_clash h) (by simp only [headCh]; decide)
    | jnum s =>
      exfalso
      have hn := num_head_isNum s
      rw [← head_clash h] at hn
      exact absurd hn (by simp only [headCh]; decide)
    | jstr s => exact absurd (head_clash h) (by simp only [headCh]; decide)
    | jarr l => exact absurd (head_clash h) (by simp only [headCh]; decide)
    | jobj l => exact absurd (head_clash h) (by simp only [headCh]; decide)
  | jbool b =>
    cases v₂ with
    | jnull => cases b <;> exact absurd (head_clash h) (by simp only [headCh]; decide)
    | jbool b₂ =>
      cases b <;> cases b₂
      · exact ⟨rfl, by simpa [dumpsChars] using h⟩
      · exact absurd (head_clash h) (by simp only [headCh]; decide)
      · exact absurd (head_clash h) (by simp only [headCh]; decide)
      · exact ⟨rfl, by simpa [dumpsChars] using h⟩
    | jnum s =>
      exfalso
      have hn := num_head_isNum s
      rw [← head_clash h] at hn
      cases b <;> exact absurd hn (by simp only [headCh]; decide)
    | jstr s => cases b <;> exact absurd (head_clash h) (by simp only [headCh]; decide)
    | jarr l => cases b <;> exact absurd (head_clash h) (by simp only [headCh]; decide)
    | jobj l => cases b <;> exact absurd (head_clash h) (by simp only [headCh]; decide)
  | jnum s =>
    cases v₂ with
    | jnull =>
      exfalso
      have hn := num_head_isNum s
      rw [head_clash h] at hn
      exact absurd hn (by simp only [headCh]; decide)
    | jbool b =>
      exfalso
      have hn := num_head_isNum s
      rw [head_clash h] at hn
      cases b <;> exact absurd hn (by simp only [headCh]; decide)
    | jnum s₂ =>
      simp only [dumpsChars] at h
      obtain ⟨hv, hr⟩ := numRun_split s.val s₂.val r₁ r₂
        (fun c hc => List.all_eq_true.mp s.2.2 c hc)
        (fun c hc => List.all_eq_true.mp s₂.2.2 c hc) hg₁ hg₂ h
      exact ⟨by rw [Subtype.ext hv], hr⟩
    | jstr s₂ =>
      exfalso
      have hn := num_head_isNum s
      rw [head_clash h] at hn
      exact absurd hn (by simp only [headCh]; decide)
    | jarr l =>
      exfalso
      have hn := num_head_isNum s
      rw [head_clash h] at hn
      exact absurd hn (by simp only [headCh]; decide)
    | jobj l =>
      exfalso
      have hn := num_head_isNum s
      rw [head_clash h] at hn
      exact absurd hn (by simp only [headCh]; decide)
  | jstr s =>
    cases v₂ with
    | jnull => exact absurd (head_clash h) (by simp only [headCh]; decide)
    | jbool b => cases b <;> exact absurd (head_clash h) (by simp only [headCh]; decide)
    | jnum s₂ =>
      exfalso
      have hn := num_head_isNum s₂
      rw [← head_clash h] at hn
      exact absurd hn (by simp only [headCh]; decide)
    | jstr s₂ =>
      simp only [dumpsChars] at h
      obtain ⟨hd, hr⟩ := encStr_split _ _ _ _ h
      exact ⟨by rw [string_ext hd], hr⟩
    | jarr l => exact absurd (head_clash h) (by simp only [headCh]; decide)
    | jobj l => exact absurd (head_clash h) (by simp only [headCh]; decide)
  | jarr l₁ =>
    cases v₂ with
    | jnull => exact absurd (head_clash h) (by simp only [headCh]; decide)
    | jbool b => cases b <;> exact absurd (head_clash h) (by simp only [headCh]; decide)
    | jnum s₂ =>
      exfalso
      have hn := num_head_isNum s₂
      rw [← head_clash h] at hn
      exact absurd hn (by simp only [headCh]; decide)
    | jstr s => exact absurd (head_clash h) (by simp only [headCh]; decide)
    | jarr l₂ =>
      simp only [dumpsChars, List.cons_append, List.append_assoc,
        List.singleton_append, List.cons.injEq, true_and] at h
      have hsz' : sizeOf (JsonVal.jarr l₁) ≤ n := hsz
      obtain ⟨hl, hr⟩ := dumpsArr_split l₁ l₂ r₁ r₂
        (fun v hv v₂ r₁' r₂' hg₁' hg₂' hh => by
          have hlt : sizeOf v < n := by
            have h1 := List.sizeOf_lt_of_mem hv
            have h2 : sizeOf (JsonVal.jarr l₁) = 1 + sizeOf l₁ := by
              simp [JsonVal.jarr.sizeOf_spec]
            omega
          exact ih (sizeOf v) hlt v v₂ r₁' r₂' (Nat.le_refl _) hg₁' hg₂' hh) h
      exact ⟨by rw [hl], hr⟩
    | jobj l => exact absurd (head_clash h) (by simp only [headCh]; decide)
  | jobj l₁ =>
    cases v₂ with
    | jnull => exact absurd (head_clash h) (by simp only [headCh]; decide)
    | jbool b => cases b <;> exact absurd (head_clash h) (by simp only [headCh]; decide)
    | jnum s₂ =>
      exfalso
      have hn := num_head_isNum s₂
      rw [← head_clash h] at hn
      exact absurd hn (by simp only [headCh]; decide)
    | jstr s => exact absurd (head_clash h) (by simp only [headCh]; decide)
    | jarr l => exact absurd (head_clash h) (by simp only [headCh]; decide)
    | jobj l₂ =>
      simp only [dumpsChars, List.cons_append, List.append_assoc,
        List.singleton_append, List.cons.injEq, true_and] at h
      obtain ⟨hl, hr⟩ := dumpsObj_split l₁ l₂ r₁ r₂
        (fun p hp v₂ r₁' r₂' hg₁' hg₂' hh => by
          have hlt : sizeOf p.2 < n := by
            have h1 := List.sizeOf_lt_of_mem hp
            have h2 : sizeOf (JsonVal.jobj l₁) = 1 + sizeOf l₁ := by
              simp [JsonVal.jobj.sizeOf_spec]
            have h3 : sizeOf p.2 < sizeOf p := by
              obtain ⟨a, b⟩ := p
              simp
            omega
          exact ih (sizeOf p.2) hlt p.2 v₂ r₁' r₂' (Nat.le_refl _) hg₁' hg₂' hh) h
      exact ⟨by rw [hl], hr⟩

/-- `json.dumps` is injective on JSON values. -/
theorem dumpsChars_inj {v₁ v₂ : JsonVal} (h : dumpsChars v₁ = dumpsChars v₂) :
    v₁ = v₂ := by
  have h' : dumpsChars v₁ ++ [] = dumpsChars v₂ ++ [] := by simp [h]
  exact (dumps_split (sizeOf v₁) v₁ v₂ [] [] (Nat.le_refl _) (.inl rfl) (.inl rfl) h').1

/-! ## Key sorting: permutation, sortedness, canonicity -/

theorem lexLe_total : ∀ a b : List Char, lexLe a b = true ∨ lexLe b a = true := by
  intro a
  induction a with
  | nil => intro b; exact .inl rfl
  | cons c cs ih =>
    intro b
    cases b with
    | nil => exact .inr rfl
    | cons d ds =>
      by_cases h1 : c.toNat < d.toNat
      · exact .inl (by simp [lexLe, h1])
      · by_cases h2 : d.toNat < c.toNat
        · exact .inr (by simp [lexLe, h2, h1])
        · rcases ih ds with h | h
          · exact .inl (by simp [lexLe, h1, h2, h])
          · exact .inr (by simp [lexLe, h1, h2, h])

theorem lexLe_antisymm : ∀ a b : List Char,
    lexLe a b = true → lexLe b a = true → a = b := by
  intro a
  induction a with
  | nil =>
    intro b _ hba
    cases b with
    | nil => rfl
    | cons d ds => exact absurd hba (by simp [lexLe])
  | cons c cs ih =>
    intro b hab hba
    cases b with
    | nil => exact absurd hab (by simp [lexLe])
    | cons d ds =>
      by_cases h1 : c.toNat < d.toNat
      · exfalso
        have : ¬d.toNat < c.toNat := by omega
        simp [lexLe, this, h1] at hba
      · by_cases h2 : d.toNat < c.toNat
        · exfalso
          simp [lexLe, h1, h2] at hab
        · have hcd : c = d := char_eq_of_toNat (by omega)
          simp only [lexLe, if_neg h1, if_neg h2] at hab
          simp only [lexLe, if_neg h2, if_neg h1] at hba
          rw [hcd, ih ds hab hba]

theorem keyLe_total (a b : String) : keyLe a b = true ∨ keyLe b a = true :=
  lexLe_total a.data b.data

theorem keyLe_antisymm {a b : String} (h₁ : keyLe a b = true) (h₂ : keyLe b a = true) :
    a = b :=
  string_ext (lexLe_antisymm a.data b.data h₁ h₂)

theorem insertPair_perm (p : String × JsonVal) :
    ∀ l : List (String × JsonVal), (insertPair p l).Perm (p :: l) := by
  intro l
  induction l with
  | nil => exact .refl _
  | cons q t ih =>
    by_cases h : keyLe p.1 q.1
    · simp [insertPair, h]
    · simp only [insertPair, if_neg h]
      exact (List.Perm.cons q ih).trans (List.Perm.swap p q t)

theorem sortPairs_perm : ∀ l : List (String × JsonVal), (sortPairs l).Perm l := by
  intro l
  induction l with
  | nil => exact .refl _
  | cons p t ih =>
    exact (insertPair_perm p (sortPairs t)).trans (ih.cons p)

theorem lexLe_trans : ∀ a b c : List Char,
    lexLe a b = true → lexLe b c = true → lexLe a c = true := by
  intro a
  induction a with
  | nil => intro b c _ _; rfl
  | cons x xs ih =>
    intro b c hab hbc
    cases b with
    | nil => exact absurd hab (by simp [lexLe])
    | cons y ys =>
      cases c with
      | nil => exact absurd hbc (by simp [lexLe])
      | cons z zs =>
        by_cases hxy : x.toNat < y.toNat
        · by_cases hyz : y.toNat < z.toNat
          · simp [lexLe, show x.toNat < z.toNat by omega]
          · by_cases hzy : z.toNat < y.toNat
            · exfalso; simp [lexLe, hyz, hzy] at hbc
            · simp [lexLe, show x.toNat < z.toNat by omega]
        · by_cases hyx : y.toNat < x.toNat
          · exfalso; simp [lexLe, hxy, hyx] at hab
          · by_cases hyz : y.toNat < z.toNat
            · simp [lexLe, show x.toNat < z.toNat by omega]
            · by_cases hzy : z.toNat < y.toNat
              · exfalso; simp [lexLe, hyz, hzy] at hbc
              · have h1 : ¬x.toNat < z.toNat := by omega
                have h2 : ¬z.toNat < x.toNat := by omega
                simp only [lexLe, if_neg hxy, if_neg hyx] at hab
                simp only [lexLe, if_neg hyz, if_neg hzy] at hbc
                simp only [lexLe, if_neg h1, if_neg h2]
                exact ih ys zs hab hbc

theorem keyLe_trans {a b c : String} (h₁ : keyLe a b = true) (h₂ : keyLe b c = true) :
    keyLe a c = true :=
  lexLe_trans a.data b.data c.data h₁ h₂

theorem insertPair_sorted (p : String × JsonVal) (l : List (String × JsonVal))
    (hl : l.Pairwise fun a b => keyLe a.1 b.1 = true) :
    (insertPair p l).Pairwise fun a b => keyLe a.1 b.1 = true := by
  induction l with
  | nil => simp [insertPair]
  | cons q t ih =>
    obtain ⟨hq, ht⟩ := List.pairwise_cons.mp hl
    by_cases h : keyLe p.1 q.1
    · simp only [insertPair, if_pos h]
      refine List.Pairwise.cons ?_ hl
      intro b hb
      rcases List.mem_cons.mp hb with rfl | hb
      · exact h
      · exact keyLe_trans h (hq b hb)
    · simp only [insertPair, if_neg h]
      refine List.Pairwise.cons ?_ (ih ht)
      intro b hb
      rcases List.mem_cons.mp ((insertPair_perm p t).mem_iff.mp hb) with rfl | hb
      · rcases keyLe_total b.1 q.1 with hx | hx
        · exact absurd hx h
        · exact hx
      · exact hq b hb

theorem sortPairs_sorted : ∀ l : List (String × JsonVal),
    (sortPairs l).Pairwise fun a b => keyLe a.1 b.1 = true := by
  intro l
  induction l with
  | nil => simp [sortPairs]
  | cons p t ih => exact insertPair_sorted p (sortPairs t) ih

/-- Two sorted pair lists with duplicate-free keys that are permutations
of one another are equal. -/
theorem sorted_perm_eq : ∀ (l₁ l₂ : List (String × JsonVal)),
    l₁.Pairwise (fun a b => keyLe a.1 b.1 = true) →
    l₂.Pairwise (fun a b => keyLe a.1 b.1 = true) →
    (l₁.map Prod.fst).Nodup → l₁.Perm l₂ → l₁ = l₂ := by
  intro l₁
  induction l₁ with
  | nil =>
    intro l₂ _ _ _ hp
    exact hp.nil_eq
  | cons p t ih =>
    intro l₂ hs₁ hs₂ hnd hp
    cases l₂ with
    | nil => exact absurd hp.eq_nil (by simp)
    | cons q t₂ =>
      have hpq : p = q := by
        have hpmem : p ∈ q :: t₂ := hp.mem_iff.mp (List.mem_cons_self _ _)
        rcases List.mem_cons.mp hpmem with heq | hpmem
        · exact heq
        · have hqmem : q ∈ p :: t := hp.mem_iff.mpr (List.mem_cons_self _ _)
          rcases List.mem_cons.mp hqmem with heq | hqmem
          · exact heq.symm
          · exfalso
            have h1 : keyLe p.1 q.1 = true := (List.pairwise_cons.mp hs₁).1 q hqmem
            have h2 : keyLe q.1 p.1 = true := (List.pairwise_cons.mp hs₂).1 p hpmem
            have hk := keyLe_antisymm h1 h2
            have hnd₂ : ((q :: t₂).map Prod.fst).Nodup := (hp.map Prod.fst).nodup hnd
            have hmem : p.1 ∈ t₂.map Prod.fst := List.mem_map_of_mem Prod.fst hpmem
            rw [hk] at hmem
            exact (List.nodup_cons.mp hnd₂).1 hmem
      subst hpq
      have htail := hp.cons_inv
      have := ih t₂ (List.pairwise_cons.mp hs₁).2 (List.pairwise_cons.mp hs₂).2
        (List.nodup_cons.mp (by simpa using hnd)).2 htail
      rw [this]

theorem sortPairs_eq_of_perm {l₁ l₂ : List (String × JsonVal)}
    (h : l₁.Perm l₂) (hnd : (l₁.map Prod.fst).Nodup) :
    sortPairs l₁ = sortPairs l₂ := by
  refine sorted_perm_eq _ _ (sortPairs_sorted l₁) (sortPairs_sorted l₂) ?_ ?_
  · exact ((sortPairs_perm l₁).map Prod.fst).symm.nodup hnd
  · exact (sortPairs_perm l₁).trans (h.trans (sortPairs_perm l₂).symm)

/-! ## Canonicalization versus data equivalence -/

theorem perm_map_exists {α β : Type} (f : α → β) :
    ∀ (l₂ l₁ : List α), (l₁.map f).Perm (l₂.map f) →
    ∃ l₁', l₁.Perm l₁' ∧ l₁'.map f = l₂.map f := by
  intro l₂
  induction l₂ with
  | nil =>
    intro l₁ h
    have hn := h.eq_nil
    have hl : l₁ = [] := by
      cases l₁ with
      | nil => rfl
      | cons a t => simp at hn
    exact ⟨[], by rw [hl], by simp⟩
  | cons q t₂ ih =>
    intro l₁ h
    have hq : f q ∈ l₁.map f := h.mem_iff.mpr (by simp)
    obtain ⟨p, hp, hfp⟩ := by simpa using hq
    obtain ⟨s, t, rfl⟩ := List.append_of_mem hp
    have hperm : (s ++ p :: t).Perm (p :: (s ++ t)) := List.perm_middle
    have h2 : ((s ++ t).map f).Perm (t₂.map f) := by
      have h3 : (f p :: (s ++ t).map f).Perm (f q :: t₂.map f) := by
        have e1 : (p :: (s ++ t)).map f = f p :: (s ++ t).map f := by simp
        have h4 := (hperm.map f).symm.trans h
        rw [e1] at h4
        simpa using h4
      rw [hfp] at h3
      exact h3.cons_inv
    obtain ⟨t', ht'p, ht'm⟩ := ih (s ++ t) h2
    exact ⟨p :: t', hperm.trans (ht'p.cons p), by simp [ht'm, hfp]⟩

theorem canonObj_eq_map : ∀ l : List (String × JsonVal),
    canonObj l = l.map fun p => (p.1, canon p.2) := by
  intro l
  induction l with
  | nil => rfl
  | cons p t ih =>
    obtain ⟨k, v⟩ := p
    simp only [canonObj, List.map_cons, ih]

theorem canonObj_fst (l : List (String × JsonVal)) :
    (canonObj l).map Prod.fst = l.map Prod.fst := by
  rw [canonObj_eq_map, List.map_map]
  rfl

theorem noDupKeys_nodup : ∀ l : List (String × JsonVal),
    noDupKeys l = true → (l.map Prod.fst).Nodup := by
  intro l
  induction l with
  | nil => intro _; simp
  | cons p t ih =>
    intro h
    obtain ⟨k, v⟩ := p
    have h' : (t.any fun q => q.1 == k) = false ∧ noDupKeys t = true := by
      simpa [noDupKeys] using h
    simp only [List.map_cons, List.nodup_cons]
    refine ⟨?_, ih h'.2⟩
    intro hmem
    obtain ⟨p, hp, hpk⟩ : ∃ p ∈ t, p.1 = k := by simpa using hmem
    have hany : (t.any fun q => q.1 == k) = true :=
      List.any_eq_true.mpr ⟨p, hp, by simpa using hpk⟩
    rw [h'.1] at hany
    exact Bool.false_ne_true hany

theorem wfKeysArr_mem : ∀ l : List JsonVal, wfKeysArr l = true →
    ∀ a ∈ l, wfKeys a = true := by
  intro l
  induction l with
  | nil => intro _ a ha; cases ha
  | cons b t ih =>
    intro h a ha
    have h' : wfKeys b = true ∧ wfKeysArr t = true := by simpa [wfKeysArr] using h
    rcases List.mem_cons.mp ha with rfl | ha
    · exact h'.1
    · exact ih h'.2 a ha

theorem wfKeysObj_mem : ∀ l : List (String × JsonVal), wfKeysObj l = true →
    ∀ p ∈ l, wfKeys p.2 = true := by
  intro l
  induction l with
  | nil => intro _ p hp; cases hp
  | cons q t ih =>
    intro h p hp
    obtain ⟨k, v⟩ := q
    have h' : wfKeys v = true ∧ wfKeysObj t = true := by simpa [wfKeysObj] using h
    rcases List.mem_cons.mp hp with rfl | hp
    · exact h'.1
    · exact ih h'.2 p hp

theorem sizeOf_item_lt_arr {a : JsonVal} {l : List JsonVal} (h : a ∈ l) :
    sizeOf a < sizeOf (JsonVal.jarr l) := by
  have h1 := List.sizeOf_lt_of_mem h
  simp only [JsonVal.jarr.sizeOf_spec]
  omega

theorem sizeOf_val_lt_obj {p : String × JsonVal} {l : List (String × JsonVal)}
    (h : p ∈ l) : sizeOf p.2 < sizeOf (JsonVal.jobj l) := by
  have h1 := List.sizeOf_lt_of_mem h
  obtain ⟨k, v⟩ := p
  simp only [Prod.mk.sizeOf_spec] at h1
  simp only [JsonVal.jobj.sizeOf_spec]
  omega

/-- Data-equivalent well-formed values canonicalize identically. -/
theorem equiv_canon_aux : ∀ n : Nat, ∀ v w : JsonVal, sizeOf v ≤ n →
    JsonEquiv v w → wfKeys v = true → canon v = canon w := by
  intro n
  induction n using Nat.strong_induction_on with
  | _ n ih =>
    intro v w hsz hvw hwf
    cases hvw with
    | jnull => rfl
    | jbool b => rfl
    | jnum s => rfl
    | jstr s => rfl
    | jarr hlist =>
      rename_i l₁ l₂
      have harr : ∀ (t₁ t₂ : List JsonVal), JsonEquivList t₁ t₂ →
          (∀ a ∈ t₁, sizeOf a < n ∧ wfKeys a = true) →
          canonArr t₁ = canonArr t₂ := by
        intro t₁
        induction t₁ with
        | nil =>
          intro t₂ hl _
          cases hl
          rfl
        | cons a s ihl =>
          intro t₂ hl hmem
          cases hl with
          | cons hab htail =>
            rename_i b s₂
            have h1 := hmem a (List.mem_cons_self _ _)
            have hca : canon a = canon b :=
              ih (sizeOf a) h1.1 a b (Nat.le_refl _) hab h1.2
            simp only [canonArr, hca,
              ihl s₂ htail fun x hx => hmem x (List.mem_cons_of_mem _ hx)]
      have hwf' : wfKeysArr l₁ = true := by simpa [wfKeys] using hwf
      simp only [canon]
      rw [harr l₁ l₂ hlist fun a ha =>
        ⟨Nat.lt_of_lt_of_le (sizeOf_item_lt_arr ha) hsz, wfKeysArr_mem l₁ hwf' a ha⟩]
    | jobj hperm hpairs =>
      rename_i l₁ l₁' l₂
      have hobj : ∀ (p₁ p₂ : List (String × JsonVal)), JsonEquivPairs p₁ p₂ →
          (∀ q ∈ p₁, sizeOf q.2 < n ∧ wfKeys q.2 = true) →
          canonObj p₁ = canonObj p₂ := by
        intro p₁
        induction p₁ with
        | nil =>
          intro p₂ hl _
          cases hl
          rfl
        | cons q s ihl =>
          intro p₂ hl hmem
          obtain ⟨k, a⟩ := q
          cases hl with
          | cons hab htail =>
            rename_i b s₂
            have h1 := hmem (k, a) (List.mem_cons_self _ _)
            have hca : canon a = canon b :=
              ih (sizeOf a) h1.1 a b (Nat.le_refl _) hab h1.2
            simp only [canonObj, hca,
              ihl s₂ htail fun x hx => hmem x (List.mem_cons_of_mem _ hx)]
      have hwf' : noDupKeys l₁ = true ∧ wfKeysObj l₁ = true := by
        simpa [wfKeys] using hwf
      have hco : canonObj l₁' = canonObj l₂ := hobj l₁' l₂ hpairs fun q hq =>
        ⟨Nat.lt_of_lt_of_le (sizeOf_val_lt_obj (hperm.mem_iff.mpr hq)) hsz,
         wfKeysObj_mem l₁ hwf'.2 q (hperm.mem_iff.mpr hq)⟩
      have hp1 : (canonObj l₁).Perm (canonObj l₁') := by
        rw [canonObj_eq_map, canonObj_eq_map]
        exact hperm.map _
      have hp2 : (canonObj l₁).Perm (canonObj l₂) := hco ▸ hp1
      have hndc : ((canonObj l₁).map Prod.fst).Nodup := by
        rw [canonObj_fst]
        exact noDupKeys_nodup l₁ hwf'.1
      simp only [canon]
      rw [sortPairs_eq_of_perm hp2 hndc]

/-- Well-formed values that canonicalize identically are data-equivalent. -/
theorem canon_equiv_aux : ∀ n : Nat, ∀ v w : JsonVal, sizeOf v ≤ n →
    canon v = canon w → wfKeys v = true → wfKeys w = true → JsonEquiv v w := by
  intro n
  induction n using Nat.strong_induction_on with
  | _ n ih =>
    intro v w hsz hc hwf₁ hwf₂
    cases v <;> cases w <;> simp only [canon] at hc <;>
      try exact JsonVal.noConfusion hc
    case jnull.jnull => exact .jnull
    case jbool.jbool b₁ b₂ =>
      injection hc with hb
      subst hb
      exact .jbool b₁
    case jnum.jnum s₁ s₂ =>
      injection hc with hs
      subst hs
      exact .jnum s₁
    case jstr.jstr s₁ s₂ =>
      injection hc with hs
      subst hs
      exact .jstr s₁
    case jarr.jarr l₁ l₂ =>
      injection hc with hl
      have harr : ∀ (t₁ t₂ : List JsonVal), canonArr t₁ = canonArr t₂ →
          (∀ a ∈ t₁, sizeOf a < n ∧ wfKeys a = true) →
          (∀ a ∈ t₂, wfKeys a = true) → JsonEquivList t₁ t₂ := by
        intro t₁
        induction t₁ with
        | nil =>
          intro t₂ h _ _
          cases t₂ with
          | nil => exact .nil
          | cons b s => simp [canonArr] at h
        | cons a s ihl =>
          intro t₂ h hm₁ hm₂
          cases t₂ with
          | nil => simp [canonArr] at h
          | cons b s₂ =>
            simp only [canonArr] at h
            obtain ⟨h1, h2⟩ := List.cons.inj h
            have hma := hm₁ a (List.mem_cons_self _ _)
            refine .cons (ih (sizeOf a) hma.1 a b (Nat.le_refl _) h1 hma.2
              (hm₂ b (List.mem_cons_self _ _))) ?_
            exact ihl s₂ h2 (fun x hx => hm₁ x (List.mem_cons_of_mem _ hx))
              (fun x hx => hm₂ x (List.mem_cons_of_mem _ hx))
      have hwf₁' : wfKeysArr l₁ = true := by simpa [wfKeys] using hwf₁
      have hwf₂' : wfKeysArr l₂ = true := by simpa [wfKeys] using hwf₂
      exact .jarr (harr l₁ l₂ hl
        (fun a ha => ⟨Nat.lt_of_lt_of_le (sizeOf_item_lt_arr ha) hsz,
          wfKeysArr_mem l₁ hwf₁' a ha⟩)
        (wfKeysArr_mem l₂ hwf₂'))
    case jobj.jobj l₁ l₂ =>
      injection hc with hl
      have hwf₁' : noDupKeys l₁ = true ∧ wfKeysObj l₁ = true := by
        simpa [wfKeys] using hwf₁
      have hwf₂' : noDupKeys l₂ = true ∧ wfKeysObj l₂ = true := by
        simpa [wfKeys] using hwf₂
      have hp : (canonObj l₁).Perm (canonObj l₂) := by
        have hx := (sortPairs_perm (canonObj l₁)).symm
        rw [hl] at hx
        exact hx.trans (sortPairs_perm _)
      have hpm : (l₁.map fun p => (p.1, canon p.2)).Perm
          (l₂.map fun p => (p.1, canon p.2)) := by
        rw [← canonObj_eq_map, ← canonObj_eq_map]
        exact hp
      obtain ⟨l₁', hperm, hmap⟩ := perm_map_exists _ l₂ l₁ hpm
      have hpairs : ∀ (p₁ p₂ : List (String × JsonVal)),
          (p₁.map fun p => (p.1, canon p.2)) = (p₂.map fun p => (p.1, canon p.2)) →
          (∀ q ∈ p₁, sizeOf q.2 < n ∧ wfKeys q.2 = true) →
          (∀ q ∈ p₂, wfKeys q.2 = true) → JsonEquivPairs p₁ p₂ := by
        intro p₁
        induction p₁ with
        | nil =>
          intro p₂ h _ _
          cases p₂ with
          | nil => exact .nil
          | cons r s => simp at h
        | cons q s ihl =>
          intro p₂ h hm₁ hm₂
          cases p₂ with
          | nil => simp at h
          | cons r s₂ =>
            simp only [List.map_cons] at h
            obtain ⟨h1, h2⟩ := List.cons.inj h
            obtain ⟨k, a⟩ := q
            obtain ⟨k', b⟩ := r
            obtain ⟨hk, hcv⟩ : k = k' ∧ canon a = canon b := by simpa using h1
            subst hk
            have hma := hm₁ (k, a) (List.mem_cons_self _ _)
            refine .cons (ih (sizeOf a) hma.1 a b (Nat.le_refl _) hcv hma.2
              (hm₂ (k, b) (List.mem_cons_self _ _))) ?_
            exact ihl s₂ h2 (fun x hx => hm₁ x (List.mem_cons_of_mem _ hx))
              (fun x hx => hm₂ x (List.mem_cons_of_mem _ hx))
      refine .jobj hperm (hpairs l₁' l₂ hmap ?_ (wfKeysObj_mem l₂ hwf₂'.2))
      intro q hq
      have hq₁ : q ∈ l₁ := hperm.mem_iff.mpr hq
      exact ⟨Nat.lt_of_lt_of_le (sizeOf_val_lt_obj hq₁) hsz,
        wfKeysObj_mem l₁ hwf₁'.2 q hq₁⟩

/-- **C4.** For configurations whose objects all have unique keys (as
`json.loads` guarantees), two configurations receive the same fingerprint
`json.dumps(config, sort_keys=True)` if and only if they hold identical
data: same key/value sets at every object level regardless of key order,
array element order significant, values compared recursively the same
way. -/
theorem claim4_fingerprint_iff (a b : List (String × JsonVal))
    (ha : wfKeys (.jobj a) = true) (hb : wfKeys (.jobj b) = true) :
    fingerprint a = fingerprint b ↔ JsonEquiv (.jobj a) (.jobj b) := by
  constructor
  · intro h
    have h1 : dumpsChars (canon (.jobj a)) = dumpsChars (canon (.jobj b)) :=
      congrArg String.data h
    exact canon_equiv_aux (sizeOf (JsonVal.jobj a)) _ _ (Nat.le_refl _)
      (dumpsChars_inj h1) ha hb
  · intro h
    exact congrArg (fun v => (⟨dumpsChars v⟩ : String))
      (equiv_canon_aux (sizeOf (JsonVal.jobj a)) _ _ (Nat.le_refl _) h ha)

/-- Witness for C4 at concrete configurations: two key-reorderings of the
same object data are well-formed and the fingerprint test equates them. -/
theorem claim4_witness :
    wfKeys (.jobj [("b", JsonVal.jbool true), ("a", JsonVal.jnull)]) = true ∧
    wfKeys (.jobj [("a", JsonVal.jnull), ("b", JsonVal.jbool true)]) = true ∧
    JsonEquiv (.jobj [("b", JsonVal.jbool true), ("a", JsonVal.jnull)])
      (.jobj [("a", JsonVal.jnull), ("b", JsonVal.jbool true)]) :=
  ⟨by decide, by decide,
   (claim4_fingerprint_iff [("b", JsonVal.jbool true), ("a", JsonVal.jnull)]
     [("a", JsonVal.jnull), ("b", JsonVal.jbool true)]
     (by decide) (by decide)).mp rfl⟩

end VoidService
